import Mathlib

/-!
Verification of `extract_wacz.py`, a converter from WACZ web-archive
containers to an on-disk harvest directory layout.

The Python source is shallowly embedded:
* Python strings are Lean `String`s; character-level operations
  (`split`, slicing, `os.path.basename`) are modelled on `String.data`.
* The filesystem is an explicit state `FS`: a list of files (path
  components paired with contents) and a list of directories.  Paths are
  lists of components; the root `[]` always exists as a directory.
* Python exceptions are modelled by `PResult`: an error outcome carries
  the filesystem state at the moment the exception is raised (an OS
  exception does not undo earlier mutations).
* `zipfile`/`os`/`shutil` primitives (`ZipFile.extract`, `os.mkdir`,
  `os.makedirs`, `os.rename` with POSIX overwrite semantics,
  `os.rmdir`, `shutil.move`) are modelled following CPython's documented
  behaviour on POSIX.
* `datapackage.json` is modelled as an already-parsed association list
  `List (String × String)`; JSON byte-level parsing is outside the model.
-/

/-! ## Python string primitives -/

/-- Python `str.split(sep)` for a one-character separator, on character
lists.  `pySplit c l` returns the (nonempty) list of segments of `l`
delimited by `c`; adjacent separators produce empty segments, exactly as
in Python. -/
def pySplit (c : Char) : List Char → List (List Char)
  | [] => [[]]
  | x :: xs =>
    let r := pySplit c xs
    if x = c then [] :: r
    else (x :: r.headD []) :: r.tail

/-- Python `s.startswith(pre)`. -/
def pyStartsWith (s pre : String) : Bool :=
  pre.data.isPrefixOf s.data

/-- Python slicing `s[:n]` (by code point, as in Python). -/
def pyTake (n : Nat) (s : String) : String :=
  ⟨s.data.take n⟩

/-- Embedding of Python `s.split(".")[0]` (used by `get_harvest_name`):
the head segment of the dot-split. -/
def pySplitDotHead (s : String) : String :=
  ⟨(pySplit '.' s.data).headD []⟩

/-- Taken from the spec's words ("strip everything from the first `.`
onward"): the part of the string strictly before its first dot.  Stated
separately from `pySplitDotHead` so that the two can be compared. -/
def specTruncAtFirstDot (s : String) : String :=
  ⟨s.data.takeWhile (fun c => c ≠ '.')⟩

/-- Python `os.path.basename`: everything after the last `/`. -/
def ospathBasename (s : String) : String :=
  ⟨(s.data.reverse.takeWhile (fun c => c ≠ '/')).reverse⟩

/-- A filesystem path, as a list of components. -/
abbrev FsPath := List String

/-- Conversion of a `/`-separated string (a zip-internal name, or a
relative path such as `logs/crawl/info.txt`) to path components; empty
components (from duplicate or trailing slashes) vanish, matching how the
OS resolves such strings. -/
def comps (s : String) : List String :=
  ((pySplit '/' s.data).map (fun l => (⟨l⟩ : String))).filter (fun t => t ≠ "")

/-! ## Filesystem model -/

/-- File contents: raw bytes (zip members) or a line-oriented text file
(`info.txt`, written with `print`). -/
inductive FileContent where
  | bytes (bs : List Nat)
  | text (lines : List String)
deriving DecidableEq, Repr

/-- A filesystem state: files with contents, plus directories.  The root
`[]` is implicitly always a directory. -/
structure FS where
  files : List (FsPath × FileContent)
  dirs : List FsPath
deriving DecidableEq, Repr

/-- First-match association lookup among the files. -/
def lookupFS : List (FsPath × FileContent) → FsPath → Option FileContent
  | [], _ => none
  | kv :: rest, p => if kv.1 = p then some kv.2 else lookupFS rest p

/-- `p` is a directory of `fs` (the root always is). -/
def IsDir (fs : FS) (p : FsPath) : Prop :=
  p = [] ∨ p ∈ fs.dirs

instance (fs : FS) (p : FsPath) : Decidable (IsDir fs p) := by
  unfold IsDir; infer_instance

/-- `p` is a file of `fs`. -/
def IsFile (fs : FS) (p : FsPath) : Prop :=
  (lookupFS fs.files p).isSome = true

instance (fs : FS) (p : FsPath) : Decidable (IsFile fs p) := by
  unfold IsFile; infer_instance

/-- Python `os.path.exists`. -/
def pathExists (fs : FS) (p : FsPath) : Prop :=
  IsDir fs p ∨ IsFile fs p

instance (fs : FS) (p : FsPath) : Decidable (pathExists fs p) := by
  unfold pathExists; infer_instance

/-- `p` has a strict descendant (file or directory) in `fs`. -/
def hasChild (fs : FS) (p : FsPath) : Bool :=
  fs.dirs.any (fun q => p.isPrefixOf q && decide (q ≠ p)) ||
  fs.files.any (fun kv => p.isPrefixOf kv.1 && decide (kv.1 ≠ p))

/-- Errors, named after the Python exceptions they model.
`fileExistsError` is the spec's `DestinationAlreadyExists`;
`valueErrorMissingCreated` is the spec's `MissingRequiredField("created")`;
`keyErrorManifest` covers a missing/unreadable `datapackage.json`. -/
inductive Err where
  | keyErrorManifest
  | valueErrorMissingCreated
  | fileExistsError
  | fileNotFoundError
  | notADirectoryError
  | isADirectoryError
  | dirNotEmptyError
  | shutilError
  | busyError
deriving DecidableEq, Repr

/-- Outcome of a stateful step: success with the new filesystem, or a
raised exception together with the filesystem at that moment (mutations
made before the raise persist). -/
inductive PResult where
  | ok (fs : FS)
  | err (e : Err) (fs : FS)
deriving DecidableEq, Repr

/-- Sequencing: an exception aborts the rest of the computation. -/
def PResult.bind (r : PResult) (f : FS → PResult) : PResult :=
  match r with
  | .ok fs => f fs
  | .err e fs => .err e fs

/-! ## OS primitives (CPython on POSIX) -/

/-- `os.mkdir`: single-level creation; `FileExistsError` if the target
exists, `FileNotFoundError`/`NotADirectoryError` if the parent is
missing or is a file. -/
def osMkdir (p : FsPath) (fs : FS) : PResult :=
  if pathExists fs p then .err .fileExistsError fs
  else if IsDir fs p.dropLast then .ok ⟨fs.files, p :: fs.dirs⟩
  else if IsFile fs p.dropLast then .err .notADirectoryError fs
  else .err .fileNotFoundError fs

/-- The recursion of `os.makedirs` (no `exist_ok`): create missing
ancestors, then the directory itself.  Fuelled structurally by the path
length, which bounds the ancestor chain (when the fuel runs out the path
is empty, whose parent always exists, so the clauses agree with
CPython's unbounded recursion). -/
def osMakedirsAux : Nat → FsPath → FS → PResult
  | 0, p, fs => osMkdir p fs
  | fuel + 1, p, fs =>
    if p.dropLast ≠ [] ∧ ¬ pathExists fs p.dropLast then
      (osMakedirsAux fuel p.dropLast fs).bind (fun fs2 => osMkdir p fs2)
    else osMkdir p fs

/-- `os.makedirs`. -/
def osMakedirs (p : FsPath) (fs : FS) : PResult :=
  osMakedirsAux p.length p fs

/-- `open(path, "wb").write(...)` / `open(path, "w")` + writes: create or
truncate the file; fails if the target is a directory or the parent
directory is absent. -/
def writeFileFS (p : FsPath) (c : FileContent) (fs : FS) : PResult :=
  if IsDir fs p then .err .isADirectoryError fs
  else if IsDir fs p.dropLast then
    .ok ⟨(p, c) :: fs.files.filter (fun kv => kv.1 ≠ p), fs.dirs⟩
  else if IsFile fs p.dropLast then .err .notADirectoryError fs
  else .err .fileNotFoundError fs

/-- Rebase `p` from `src` onto `dst` when `src` is a prefix of `p`
(subtree rename helper for `os.rename` on directories). -/
def rebaseOne (src dst p : FsPath) : FsPath :=
  if src.isPrefixOf p then dst ++ p.drop src.length else p

/-- `os.rename` on POSIX: renaming a file over an existing file replaces
it silently; renaming over a directory fails; renaming a directory over
a nonempty directory fails. -/
def osRename (src dst : FsPath) (fs : FS) : PResult :=
  match lookupFS fs.files src with
  | some c =>
    if IsDir fs dst then .err .isADirectoryError fs
    else if IsDir fs dst.dropLast then
      .ok ⟨(dst, c) :: fs.files.filter (fun kv => kv.1 ≠ src ∧ kv.1 ≠ dst), fs.dirs⟩
    else .err .fileNotFoundError fs
  | none =>
    if IsDir fs src then
      if IsFile fs dst then .err .notADirectoryError fs
      else if hasChild fs dst then .err .dirNotEmptyError fs
      else if IsDir fs dst.dropLast then
        .ok ⟨fs.files.map (fun kv => (rebaseOne src dst kv.1, kv.2)),
             (fs.dirs.filter (fun d => d ≠ dst)).map (rebaseOne src dst)⟩
      else .err .fileNotFoundError fs
    else .err .fileNotFoundError fs

/-- `os.rmdir`: fails on files, missing paths, and nonempty directories
(`ENOTEMPTY`). -/
def osRmdir (p : FsPath) (fs : FS) : PResult :=
  if IsFile fs p then .err .notADirectoryError fs
  else if ¬ IsDir fs p then .err .fileNotFoundError fs
  else if hasChild fs p then .err .dirNotEmptyError fs
  else if p = [] then .err .busyError fs
  else .ok ⟨fs.files, fs.dirs.filter (fun d => d ≠ p)⟩

/-- `shutil.move(src, dst)`: when `dst` is a directory the real target is
`dst/basename(src)` and a pre-existing real target raises
`shutil.Error`; otherwise it falls through to `os.rename` (same
filesystem assumed). -/
def shutilMove (src dst : FsPath) (fs : FS) : PResult :=
  if IsDir fs dst then
    if src.isPrefixOf dst then .err .shutilError fs
    else
      let realDst := dst ++ [src.getLastD ""]
      if pathExists fs realDst then .err .shutilError fs
      else osRename src realDst fs
  else osRename src dst fs

/-! ## Zip model -/

/-- One member of the zip archive: its internal name (directory members
end with `/`, as in the zip format) and its bytes. -/
structure ZipEntry where
  filename : String
  bytes : List Nat
deriving DecidableEq, Repr

/-- An opened `ZipFile`: the on-disk path it was opened from, its member
list, and the parsed contents of `datapackage.json` (`none` when the
manifest is missing or unreadable). -/
structure ZipFileM where
  filename : String
  filelist : List ZipEntry
  datapackage : Option (List (String × String))
deriving DecidableEq, Repr

/-- `ZipInfo.is_dir()`: the member name ends with `/`. -/
def isDirEntryName (s : String) : Bool :=
  s.data.getLast? = some '/'

/-- `ZipFile.extract(zip_info, to_path)` (CPython `_extract_member`):
ensure the parent directories of `to_path/<member name>` exist (via
`os.makedirs` when the dirname does not exist), then create the
directory (for a directory member) or write the member bytes. -/
def zipExtract (e : ZipEntry) (toPath : FsPath) (fs : FS) : PResult :=
  let target := toPath ++ comps e.filename
  let step1 : PResult :=
    if target.dropLast ≠ [] ∧ ¬ pathExists fs target.dropLast then
      osMakedirs target.dropLast fs
    else .ok fs
  step1.bind (fun fs2 =>
    if isDirEntryName e.filename then
      if ¬ IsDir fs2 target then osMkdir target fs2 else .ok fs2
    else writeFileFS target (.bytes e.bytes) fs2)

/-! ## The converter (`extract_wacz.py`) -/

/-- `HARVEST_NAME_PREFIX = "Linkra"` (renamed; Lean source cannot carry
the original constant name). -/
def harvestNamePre : String := "Linkra"

/-- `SCRIPT_NAME`. -/
def SCRIPT_NAME : String := "extract_wacz.py"

/-- `SCRIPT_VERSION`. -/
def SCRIPT_VERSION : String := "1.0.0"

/-- The loop body of `extract_from_to`: for each member whose name starts
with `from_path`, extract it below `to_path`, `shutil.move` it to
`to_path/<basename>`, then `os.rmdir(to_path/from_path)`. -/
def extractLoop (fromPath : String) (toPath : FsPath) :
    List ZipEntry → FS → PResult
  | [], fs => .ok fs
  | e :: rest, fs =>
    if pyStartsWith e.filename fromPath then
      (zipExtract e toPath fs).bind (fun fs1 =>
      (shutilMove (toPath ++ comps e.filename)
          (toPath ++ comps (ospathBasename e.filename)) fs1).bind (fun fs2 =>
      (osRmdir (toPath ++ comps fromPath) fs2).bind (fun fs3 =>
      extractLoop fromPath toPath rest fs3)))
    else extractLoop fromPath toPath rest fs

/-- `extract_from_to(wacz_zip, from_path, to_path)`. -/
def extract_from_to (waczZip : ZipFileM) (fromPath : String) (toPath : FsPath)
    (fs : FS) : PResult :=
  extractLoop fromPath toPath waczZip.filelist fs

/-- The rename step at the end of `extract_warcs`: if
`harvest_path/data.warc.gz` exists, `os.rename` it to
`harvest_path/<harvest_name>.warc.gz`. -/
def renameDataWarc (harvestPath : FsPath) (harvestName : String) (fs : FS) :
    PResult :=
  let dataWarcPath := harvestPath ++ comps "data.warc.gz"
  let correctWarcPath := harvestPath ++ comps (harvestName ++ ".warc.gz")
  if pathExists fs dataWarcPath then osRename dataWarcPath correctWarcPath fs
  else .ok fs

/-- `extract_warcs(wacz_zip, harvest_path, harvest_name)`. -/
def extract_warcs (waczZip : ZipFileM) (harvestPath : FsPath)
    (harvestName : String) (fs : FS) : PResult :=
  (extract_from_to waczZip "archive/" harvestPath fs).bind
    (renameDataWarc harvestPath harvestName)

/-- `create_directory_structure(harvest_path)`: four `os.mkdir` calls, in
source order. -/
def create_directory_structure (harvestPath : FsPath) (fs : FS) : PResult :=
  (osMkdir harvestPath fs).bind (fun fs1 =>
  (osMkdir (harvestPath ++ ["logs"]) fs1).bind (fun fs2 =>
  (osMkdir (harvestPath ++ ["logs", "cdx"]) fs2).bind (fun fs3 =>
  osMkdir (harvestPath ++ ["logs", "crawl"]) fs3)))

/-! ## Harvest metadata -/

/-- `RequiredHarvestMetadata`: `full_date` is the manifest's `created`
string verbatim, `date` is `full_date[:7]`. -/
structure RequiredHarvestMetadata where
  full_date : String
  date : String
deriving DecidableEq, Repr

/-- `RequiredHarvestMetadata.__init__`: raises
`ValueError` (spec: `MissingRequiredField("created")`) when the manifest
has no `created` key. -/
def RequiredHarvestMetadata.init (dp : List (String × String)) :
    Except Err RequiredHarvestMetadata :=
  match dp.lookup "created" with
  | some c => .ok ⟨c, pyTake 7 c⟩
  | none => .error .valueErrorMissingCreated

/-- `OptionalHarvestMetadata`: each field is the manifest value when the
key is present, else `None`. -/
structure OptionalHarvestMetadata where
  title : Option String
  software : Option String
  main_page_url : Option String
  main_page_date : Option String
deriving DecidableEq, Repr

/-- `OptionalHarvestMetadata.__init__`. -/
def OptionalHarvestMetadata.init (dp : List (String × String)) :
    OptionalHarvestMetadata :=
  ⟨dp.lookup "title", dp.lookup "software",
   dp.lookup "mainPageUrl", dp.lookup "mainPageDate"⟩

/-- `HarvestMetadata`. -/
structure HarvestMetadata where
  required : RequiredHarvestMetadata
  optional : OptionalHarvestMetadata
deriving DecidableEq, Repr

/-- `HarvestMetadata.__init__`. -/
def HarvestMetadata.init (dp : List (String × String)) :
    Except Err HarvestMetadata :=
  match RequiredHarvestMetadata.init dp with
  | .ok r => .ok ⟨r, OptionalHarvestMetadata.init dp⟩
  | .error e => .error e

/-- `get_harvest_metadata`: read and parse `datapackage.json` (modelled
as the archive's pre-parsed `datapackage` field), then build the
metadata record. -/
def get_harvest_metadata (waczZip : ZipFileM) : Except Err HarvestMetadata :=
  match waczZip.datapackage with
  | some dp => HarvestMetadata.init dp
  | none => .error .keyErrorManifest

/-- `get_harvest_name`: `f"{prefix}-{date}-{filename}"` where `filename`
is `os.path.basename(wacz_zip.filename).split(".")[0]`. -/
def get_harvest_name (waczZip : ZipFileM) (m : HarvestMetadata) : String :=
  harvestNamePre ++ "-" ++ m.required.date ++ "-" ++
    pySplitDotHead (ospathBasename waczZip.filename)

/-- Python truthiness gate used by `create_info_file`: one `key: value`
line when the optional field is a truthy (present, nonempty) string. -/
def pyTruthyLine (key : String) (v : Option String) : List String :=
  match v with
  | some s => if s = "" then [] else [key ++ ": " ++ s]
  | none => []

/-- The lines `create_info_file` prints into `logs/crawl/info.txt`, in
source order (`today` is `datetime.now().isoformat()`, passed in). -/
def create_info_file_lines (m : HarvestMetadata)
    (waczFileName harvestName today : String) : List String :=
  ["info: this harvest was extracted from WACZ file",
   "original_file: " ++ waczFileName,
   "converted_with: " ++ SCRIPT_NAME ++ " " ++ SCRIPT_VERSION,
   "conversion_date: " ++ today,
   "harvest_name: " ++ harvestName,
   "wacz_created: " ++ m.required.full_date]
  ++ pyTruthyLine "wacz_title" m.optional.title
  ++ pyTruthyLine "wacz_software" m.optional.software
  ++ pyTruthyLine "wacz_main_page_url" m.optional.main_page_url
  ++ pyTruthyLine "wacz_main_page_date" m.optional.main_page_date

/-- `create_info_file`: write the lines to
`harvest_path/logs/crawl/info.txt`. -/
def create_info_file (m : HarvestMetadata) (harvestPath : FsPath)
    (waczFileName harvestName today : String) (fs : FS) : PResult :=
  writeFileFS (harvestPath ++ comps "logs/crawl/info.txt")
    (.text (create_info_file_lines m waczFileName harvestName today)) fs

/-- `prepare_and_run`: metadata, name, directory skeleton, warc
extraction and rename, provenance file.  `targetPath` is the parsed
`target_directory` argument; `today` is the conversion wall-clock
timestamp. -/
def prepare_and_run (waczZip : ZipFileM) (targetPath : FsPath)
    (today : String) (fs : FS) : PResult :=
  match get_harvest_metadata waczZip with
  | .error e => .err e fs
  | .ok m =>
    let harvestName := get_harvest_name waczZip m
    let harvestPath := targetPath ++ comps harvestName
    (create_directory_structure harvestPath fs).bind (fun fs1 =>
    (extract_warcs waczZip harvestPath harvestName fs1).bind (fun fs2 =>
    create_info_file m harvestPath (ospathBasename waczZip.filename)
      harvestName today fs2))

/-! ## Helper lemmas: strings and paths -/

theorem pySplit_cons_eq (c : Char) (xs : List Char) :
    pySplit c (c :: xs) = [] :: pySplit c xs := by
  simp [pySplit]

theorem pySplit_cons_ne (c x : Char) (xs : List Char) (h : x ≠ c) :
    pySplit c (x :: xs) =
      (x :: (pySplit c xs).headD []) :: (pySplit c xs).tail := by
  simp [pySplit, h]

theorem pySplit_headD_eq_takeWhile (c : Char) (l : List Char) :
    (pySplit c l).headD [] = l.takeWhile (fun x => x ≠ c) := by
  induction l with
  | nil => rfl
  | cons x xs ih =>
    by_cases hx : x = c
    · subst hx
      simp [pySplit_cons_eq, List.takeWhile_cons]
    · rw [pySplit_cons_ne c x xs hx]
      rw [List.headD_cons, List.takeWhile_cons]
      rw [if_pos (by simp [hx]), ih]

/-- The source's dot-truncation (`split(".")[0]`) is truncation at the
first dot, as the spec words it. -/
theorem pySplitDotHead_eq_spec (s : String) :
    pySplitDotHead s = specTruncAtFirstDot s := by
  unfold pySplitDotHead specTruncAtFirstDot
  rw [pySplit_headD_eq_takeWhile]

theorem pySplit_no_sep (c : Char) (l : List Char) (h : ∀ x ∈ l, x ≠ c) :
    pySplit c l = [l] := by
  induction l with
  | nil => rfl
  | cons x xs ih =>
    have hx : x ≠ c := h x (by simp)
    have ihh : pySplit c xs = [xs] := ih (fun y hy => h y (by simp [hy]))
    simp [pySplit_cons_ne c x xs hx, ihh]

theorem pySplit_append_sep (c : Char) (l₁ l₂ : List Char)
    (h : ∀ x ∈ l₁, x ≠ c) :
    pySplit c (l₁ ++ c :: l₂) = l₁ :: pySplit c l₂ := by
  induction l₁ with
  | nil => simp [pySplit_cons_eq]
  | cons x xs ih =>
    have hx : x ≠ c := h x (by simp)
    have ihh := ih (fun y hy => h y (by simp [hy]))
    simp [pySplit_cons_ne c x (xs ++ c :: l₂) hx, ihh]

theorem comps_no_slash (s : String) (h : '/' ∉ s.data) (hne : s ≠ "") :
    comps s = [s] := by
  unfold comps
  rw [pySplit_no_sep '/' s.data (fun x hx => by rintro rfl; exact h hx)]
  have e1 : (⟨s.data⟩ : String) = s := rfl
  simp [e1, hne]

theorem comps_archive_entry (n : String) (hne : n ≠ "") (h : '/' ∉ n.data) :
    comps ("archive/" ++ n) = ["archive", n] := by
  unfold comps
  rw [String.data_append]
  rw [show ("archive/").data = "archive".data ++ ['/'] from rfl]
  rw [List.append_assoc, List.singleton_append]
  rw [pySplit_append_sep '/' _ _ (by decide)]
  rw [pySplit_no_sep '/' n.data (fun x hx => by rintro rfl; exact h hx)]
  have e1 : (⟨"archive".data⟩ : String) = "archive" := rfl
  have e2 : (⟨n.data⟩ : String) = n := rfl
  simp [e1, e2, hne]

theorem takeWhile_append_stop {α : Type} (p : α → Bool) (l₁ : List α) (x : α)
    (l₂ : List α) (h1 : ∀ a ∈ l₁, p a = true) (h2 : p x = false) :
    (l₁ ++ x :: l₂).takeWhile p = l₁ := by
  induction l₁ with
  | nil => simp [List.takeWhile_cons, h2]
  | cons a as ih =>
    have ha : p a = true := h1 a (by simp)
    have ihh := ih (fun b hb => h1 b (by simp [hb]))
    simp [List.takeWhile_cons, ha, ihh]

theorem ospathBasename_no_slash (s : String) :
    '/' ∉ (ospathBasename s).data := by
  unfold ospathBasename
  intro hmem
  rw [show ((⟨(s.data.reverse.takeWhile (fun c => c ≠ '/')).reverse⟩ :
        String)).data = (s.data.reverse.takeWhile (fun c => c ≠ '/')).reverse
      from rfl] at hmem
  rw [List.mem_reverse] at hmem
  have := List.mem_takeWhile_imp hmem
  simp at this

theorem ospathBasename_archive (n : String) (h : '/' ∉ n.data) :
    ospathBasename ("archive/" ++ n) = n := by
  unfold ospathBasename
  rw [String.data_append]
  rw [List.reverse_append]
  rw [show ("archive/").data.reverse = '/' :: "archive".data.reverse from rfl]
  rw [takeWhile_append_stop _ n.data.reverse '/' _
      (fun a ha => by
        rw [List.mem_reverse] at ha
        simp only [decide_eq_true_eq]
        rintro rfl
        exact h ha)
      (by decide)]
  rw [List.reverse_reverse]

theorem append_ne_of_length {l : FsPath} {a b : List String}
    (h : a.length ≠ b.length) : l ++ a ≠ l ++ b := by
  intro he
  have := congrArg List.length he
  simp only [List.length_append] at this
  omega

theorem append_singleton_inj {l : FsPath} {a b : String}
    (h : l ++ [a] = l ++ [b]) : a = b := by
  have := List.append_cancel_left h
  simpa using this

theorem isPrefixOf_append_self {α : Type} [BEq α] [LawfulBEq α]
    (l m : List α) : l.isPrefixOf (l ++ m) = true :=
  List.isPrefixOf_iff_prefix.mpr (List.prefix_append l m)

theorem eq_of_isPrefixOf_append_singleton {l : FsPath} {a b : String}
    (h : (l ++ [a]).isPrefixOf (l ++ [b]) = true) : a = b := by
  have hp := List.isPrefixOf_iff_prefix.mp h
  have := hp.eq_of_length (by simp)
  exact append_singleton_inj this

/-! ## Helper lemmas: the filesystem model -/

theorem lookupFS_cons (kv : FsPath × FileContent)
    (rest : List (FsPath × FileContent)) (p : FsPath) :
    lookupFS (kv :: rest) p =
      if kv.1 = p then some kv.2 else lookupFS rest p := rfl

theorem lookupFS_none_iff (l : List (FsPath × FileContent)) (p : FsPath) :
    lookupFS l p = none ↔ ∀ kv ∈ l, kv.1 ≠ p := by
  induction l with
  | nil => simp [lookupFS]
  | cons kv rest ih =>
    rw [lookupFS_cons]
    by_cases hk : kv.1 = p
    · rw [if_pos hk]
      constructor
      · intro hco
        exact absurd hco (by simp)
      · intro hall
        exact absurd hk (hall kv (List.mem_cons_self kv rest))
    · rw [if_neg hk, ih]
      constructor
      · intro hall kv2 hkv2
        rcases List.mem_cons.mp hkv2 with h1 | h2
        · rw [h1]
          exact hk
        · exact hall kv2 h2
      · intro hall kv2 hkv2
        exact hall kv2 (List.mem_cons_of_mem kv hkv2)

theorem lookupFS_isSome_of_mem {l : List (FsPath × FileContent)}
    {kv : FsPath × FileContent} (h : kv ∈ l) :
    (lookupFS l kv.1).isSome = true := by
  induction l with
  | nil => simp at h
  | cons kv2 rest ih =>
    rw [lookupFS_cons]
    by_cases hk : kv2.1 = kv.1
    · rw [if_pos hk]
      rfl
    · rw [if_neg hk]
      rcases List.mem_cons.mp h with h1 | h2
      · exact absurd (by rw [h1]) hk
      · exact ih h2

theorem lookupFS_cons_ne {rest : List (FsPath × FileContent)}
    {kv : FsPath × FileContent} {p : FsPath} (h : kv.1 ≠ p) :
    lookupFS (kv :: rest) p = lookupFS rest p := by
  simp [lookupFS, h]

theorem lookupFS_cons_self {rest : List (FsPath × FileContent)}
    {p : FsPath} {c : FileContent} :
    lookupFS ((p, c) :: rest) p = some c := by
  simp [lookupFS]

theorem lookupFS_filter_ne (l : List (FsPath × FileContent)) (p q : FsPath)
    (hpq : ∀ kv ∈ l, kv.1 = q → False) :
    lookupFS (l.filter (fun kv => kv.1 ≠ p)) q = none := by
  rw [lookupFS_none_iff]
  intro kv hkv
  have := List.mem_filter.mp hkv
  exact fun he => hpq kv this.1 he

/-! ## Claim C1 -/

/-- C1: for every archive whose manifest contains a `created` string, the
derived date token is the first seven characters of `full_date`, and the
collection identifier is exactly the fixed prefix `Linkra`, a hyphen,
the date token, a hyphen, and the archive's base filename truncated at
its first dot. -/
theorem claim1_harvest_name (z : ZipFileM) (dp : List (String × String))
    (c : String) (hdp : z.datapackage = some dp)
    (hc : dp.lookup "created" = some c) :
    get_harvest_metadata z =
      .ok ⟨⟨c, pyTake 7 c⟩, OptionalHarvestMetadata.init dp⟩ ∧
    get_harvest_name z ⟨⟨c, pyTake 7 c⟩, OptionalHarvestMetadata.init dp⟩ =
      "Linkra" ++ "-" ++ pyTake 7 c ++ "-" ++
        specTruncAtFirstDot (ospathBasename z.filename) := by
  constructor
  · simp [get_harvest_metadata, hdp, HarvestMetadata.init,
      RequiredHarvestMetadata.init, hc]
  · unfold get_harvest_name harvestNamePre
    rw [pySplitDotHead_eq_spec]

/-- Witness for C1 at the spec's own example archive. -/
theorem claim1_harvest_name_witness :
    (([("created", "2024-03-15T10:00:00Z")] : List (String × String)).lookup
        "created" = some "2024-03-15T10:00:00Z") ∧
    (get_harvest_metadata
        ⟨"/x/crawl-001.wacz", [], some [("created", "2024-03-15T10:00:00Z")]⟩ =
      .ok ⟨⟨"2024-03-15T10:00:00Z", pyTake 7 "2024-03-15T10:00:00Z"⟩,
           OptionalHarvestMetadata.init [("created", "2024-03-15T10:00:00Z")]⟩ ∧
     get_harvest_name
        ⟨"/x/crawl-001.wacz", [], some [("created", "2024-03-15T10:00:00Z")]⟩
        ⟨⟨"2024-03-15T10:00:00Z", pyTake 7 "2024-03-15T10:00:00Z"⟩,
         OptionalHarvestMetadata.init [("created", "2024-03-15T10:00:00Z")]⟩ =
      "Linkra" ++ "-" ++ pyTake 7 "2024-03-15T10:00:00Z" ++ "-" ++
        specTruncAtFirstDot (ospathBasename "/x/crawl-001.wacz")) :=
  ⟨rfl, claim1_harvest_name _ _ _ rfl rfl⟩

/-! ## Claim C2 -/

/-- C2: for every archive whose manifest lacks the `created` key, the
conversion fails with the missing-required-field error and the
filesystem is exactly as it was: no directory created, no file
written. -/
theorem claim2_missing_created (z : ZipFileM) (dp : List (String × String))
    (tp : FsPath) (today : String) (fs : FS) (hdp : z.datapackage = some dp)
    (hc : dp.lookup "created" = none) :
    prepare_and_run z tp today fs = .err .valueErrorMissingCreated fs := by
  simp [prepare_and_run, get_harvest_metadata, hdp, HarvestMetadata.init,
    RequiredHarvestMetadata.init, hc]

/-- Witness for C2: a manifest with only a title. -/
theorem claim2_missing_created_witness :
    (([("title", "T")] : List (String × String)).lookup "created" = none) ∧
    prepare_and_run ⟨"/x/c.wacz", [], some [("title", "T")]⟩ ["out"] "TODAY"
        ⟨[], [["out"]]⟩ =
      .err .valueErrorMissingCreated ⟨[], [["out"]]⟩ :=
  ⟨rfl, claim2_missing_created _ _ _ _ _ rfl rfl⟩

/-! ## Claim C10 -/

/-- C10: when the manifest's `created` value is shorter than seven
characters, metadata extraction still succeeds (the slice is total) and
the date token is the whole `full_date` string; no shape validation is
performed. -/
theorem claim10_short_created (dp : List (String × String)) (c : String)
    (hc : dp.lookup "created" = some c) (hlen : c.data.length < 7) :
    RequiredHarvestMetadata.init dp = .ok ⟨c, c⟩ := by
  have ht : pyTake 7 c = c := by
    show (⟨c.data.take 7⟩ : String) = c
    rw [List.take_of_length_le (by omega)]
  simp [RequiredHarvestMetadata.init, hc, ht]

/-- Witness for C10 with a four-character timestamp. -/
theorem claim10_short_created_witness :
    (([("created", "2024")] : List (String × String)).lookup "created" =
      some "2024") ∧
    ("2024" : String).data.length < 7 ∧
    RequiredHarvestMetadata.init [("created", "2024")] = .ok ⟨"2024", "2024"⟩ :=
  ⟨rfl, by decide, claim10_short_created _ _ rfl (by decide)⟩

/-! ## Claim C9 -/

/-- A concrete archive whose manifest `created` value contains a slash
inside its first seven characters. -/
def zipSlashCreated : ZipFileM :=
  ⟨"crawl.wacz", [], some [("created", "2024/03-15")]⟩

/-- C9 counterexample: with `created = "2024/03-15"` the date token is
`2024/03`, so the composed collection identifier
`Linkra-2024/03-crawl` contains a path separator.  The claim's universal
statement over all manifests with a `created` string is false. -/
theorem claim9_counterexample :
    get_harvest_metadata zipSlashCreated =
      .ok ⟨⟨"2024/03-15", "2024/03"⟩, ⟨none, none, none, none⟩⟩ ∧
    '/' ∈ (get_harvest_name zipSlashCreated
        ⟨⟨"2024/03-15", "2024/03"⟩, ⟨none, none, none, none⟩⟩).data := by
  constructor
  · rfl
  · decide

/-- C9 amended: the collection identifier contains no `/` provided the
date token derived from the manifest contains none (true of well-formed
ISO-8601 timestamps); the prefix is separator-free and the base filename
component never contains a separator. -/
theorem claim9_amended_no_separator (z : ZipFileM) (m : HarvestMetadata)
    (hd : '/' ∉ m.required.date.data) :
    '/' ∉ (get_harvest_name z m).data := by
  unfold get_harvest_name harvestNamePre
  intro hmem
  rw [String.data_append, String.data_append, String.data_append,
    String.data_append] at hmem
  rw [List.mem_append, List.mem_append, List.mem_append,
    List.mem_append] at hmem
  rcases hmem with ((((h1 | h2) | h3) | h4) | h5)
  · exact absurd h1 (by decide)
  · exact absurd h2 (by decide)
  · exact hd h3
  · exact absurd h4 (by decide)
  · rw [pySplitDotHead_eq_spec] at h5
    have h6 : '/' ∈ (ospathBasename z.filename).data :=
      (List.takeWhile_sublist _).subset h5
    exact ospathBasename_no_slash z.filename h6

/-- Witness for the amended C9. -/
theorem claim9_amended_witness :
    ('/' ∉ (("2024-03" : String)).data) ∧
    '/' ∉ (get_harvest_name
        ⟨"/x/crawl-001.wacz", [], some [("created", "2024-03-15T10:00:00Z")]⟩
        ⟨⟨"2024-03-15T10:00:00Z", "2024-03"⟩, ⟨none, none, none, none⟩⟩).data :=
  ⟨by decide,
   claim9_amended_no_separator _ ⟨⟨"2024-03-15T10:00:00Z", "2024-03"⟩,
     ⟨none, none, none, none⟩⟩ (by decide)⟩

/-! ## Claim C4 -/

/-- A manifest where the optional `title` key is present with an empty
string value. -/
def dpEmptyTitle : List (String × String) := [("created", "c"), ("title", "")]

/-- C4 counterexample: the manifest contains the optional field `title`
(with value `""`), yet `info.txt` contains no `wacz_title` line — the
source gates each optional line on Python truthiness, so a present but
empty field is silently dropped.  The claim "one line for each optional
manifest field that is present" is therefore false. -/
theorem claim4_counterexample :
    (dpEmptyTitle.lookup "title" = some "") ∧
    HarvestMetadata.init dpEmptyTitle =
      .ok ⟨⟨"c", "c"⟩, ⟨some "", none, none, none⟩⟩ ∧
    create_info_file_lines ⟨⟨"c", "c"⟩, ⟨some "", none, none, none⟩⟩
        "f.wacz" "h" "t" =
      ["info: this harvest was extracted from WACZ file",
       "original_file: f.wacz",
       "converted_with: extract_wacz.py 1.0.0",
       "conversion_date: t",
       "harvest_name: h",
       "wacz_created: c"] ∧
    (["info: this harvest was extracted from WACZ file",
      "original_file: f.wacz",
      "converted_with: extract_wacz.py 1.0.0",
      "conversion_date: t",
      "harvest_name: h",
      "wacz_created: c"].all
        (fun l => ! pyStartsWith l "wacz_title")) = true := by
  refine ⟨rfl, rfl, ?_, by decide⟩
  decide

/-- C4 amended: `info.txt` consists of the fixed header and the five
required lines in fixed order, followed by one `wacz_<field>: <value>`
line for each optional manifest field that is present *with a nonempty
value* (fields absent, or present with the empty string, produce no
line; the two `mainPage*` manifest keys surface under the snake_case
names `wacz_main_page_url` / `wacz_main_page_date`). -/
theorem claim4_amended_info_lines (dp : List (String × String))
    (c w h t : String) (hc : dp.lookup "created" = some c) :
    HarvestMetadata.init dp =
      .ok ⟨⟨c, pyTake 7 c⟩, OptionalHarvestMetadata.init dp⟩ ∧
    create_info_file_lines ⟨⟨c, pyTake 7 c⟩, OptionalHarvestMetadata.init dp⟩
        w h t =
      ["info: this harvest was extracted from WACZ file",
       "original_file: " ++ w,
       "converted_with: extract_wacz.py 1.0.0",
       "conversion_date: " ++ t,
       "harvest_name: " ++ h,
       "wacz_created: " ++ c]
      ++ pyTruthyLine "wacz_title" (dp.lookup "title")
      ++ pyTruthyLine "wacz_software" (dp.lookup "software")
      ++ pyTruthyLine "wacz_main_page_url" (dp.lookup "mainPageUrl")
      ++ pyTruthyLine "wacz_main_page_date" (dp.lookup "mainPageDate") ∧
    (∀ key v : String, v ≠ "" →
      pyTruthyLine key (some v) = [key ++ ": " ++ v]) ∧
    (∀ key : String,
      pyTruthyLine key (some "") = [] ∧ pyTruthyLine key none = []) := by
  refine ⟨?_, ?_, ?_, ?_⟩
  · simp [HarvestMetadata.init, RequiredHarvestMetadata.init, hc]
  · have hcw : ("converted_with: " ++ SCRIPT_NAME ++ " " ++ SCRIPT_VERSION) =
        "converted_with: extract_wacz.py 1.0.0" := by decide
    unfold create_info_file_lines
    rw [hcw]
    rfl
  · intro key v hv
    simp [pyTruthyLine, hv]
  · intro key
    exact ⟨rfl, rfl⟩

/-- Witness for the amended C4, at the spec's §8 scenario. -/
theorem claim4_amended_witness :
    (([("created", "2024-03-15T10:00:00Z"), ("title", "Example Site")] :
        List (String × String)).lookup "created" =
      some "2024-03-15T10:00:00Z") ∧
    (HarvestMetadata.init
        [("created", "2024-03-15T10:00:00Z"), ("title", "Example Site")] =
      .ok ⟨⟨"2024-03-15T10:00:00Z", pyTake 7 "2024-03-15T10:00:00Z"⟩,
        OptionalHarvestMetadata.init
          [("created", "2024-03-15T10:00:00Z"), ("title", "Example Site")]⟩ ∧
    create_info_file_lines
        ⟨⟨"2024-03-15T10:00:00Z", pyTake 7 "2024-03-15T10:00:00Z"⟩,
         OptionalHarvestMetadata.init
           [("created", "2024-03-15T10:00:00Z"), ("title", "Example Site")]⟩
        "crawl-001.wacz" "Linkra-2024-03-crawl-001" "TODAY" =
      ["info: this harvest was extracted from WACZ file",
       "original_file: " ++ "crawl-001.wacz",
       "converted_with: extract_wacz.py 1.0.0",
       "conversion_date: " ++ "TODAY",
       "harvest_name: " ++ "Linkra-2024-03-crawl-001",
       "wacz_created: " ++ "2024-03-15T10:00:00Z"]
      ++ pyTruthyLine "wacz_title"
          (([("created", "2024-03-15T10:00:00Z"), ("title", "Example Site")] :
            List (String × String)).lookup "title")
      ++ pyTruthyLine "wacz_software"
          (([("created", "2024-03-15T10:00:00Z"), ("title", "Example Site")] :
            List (String × String)).lookup "software")
      ++ pyTruthyLine "wacz_main_page_url"
          (([("created", "2024-03-15T10:00:00Z"), ("title", "Example Site")] :
            List (String × String)).lookup "mainPageUrl")
      ++ pyTruthyLine "wacz_main_page_date"
          (([("created", "2024-03-15T10:00:00Z"), ("title", "Example Site")] :
            List (String × String)).lookup "mainPageDate") ∧
    (∀ key v : String, v ≠ "" →
      pyTruthyLine key (some v) = [key ++ ": " ++ v]) ∧
    (∀ key : String,
      pyTruthyLine key (some "") = [] ∧ pyTruthyLine key none = [])) :=
  ⟨rfl, claim4_amended_info_lines _ _ _ _ _ rfl⟩

/-! ## Claim C5 -/

theorem hpAppend_ne (hp : FsPath) {a b : List String} (hne : a ≠ b) :
    hp ++ a ≠ hp ++ b := fun he => hne (List.append_cancel_left he)

theorem dropLast_pair (l : FsPath) (a b : String) :
    (l ++ [a, b]).dropLast = l ++ [a] := by
  rw [show l ++ [a, b] = (l ++ [a]) ++ [b] from (List.append_assoc l [a] [b]).symm]
  exact List.dropLast_concat

theorem osMkdir_ok {fs : FS} {p : FsPath} (h1 : ¬ pathExists fs p)
    (h2 : IsDir fs p.dropLast) :
    osMkdir p fs = .ok ⟨fs.files, p :: fs.dirs⟩ := by
  simp [osMkdir, h1, h2]

theorem osMkdir_exists {fs : FS} {p : FsPath} (h : pathExists fs p) :
    osMkdir p fs = .err .fileExistsError fs := by
  simp [osMkdir, h]

theorem IsDir_cons_self {files : List (FsPath × FileContent)}
    {dirs : List FsPath} {d : FsPath} : IsDir ⟨files, d :: dirs⟩ d :=
  Or.inr (List.mem_cons_self d dirs)

theorem IsDir_grow {files : List (FsPath × FileContent)} {dirs : List FsPath}
    {d p : FsPath} (h : IsDir ⟨files, dirs⟩ p) : IsDir ⟨files, d :: dirs⟩ p := by
  rcases h with h | h
  · exact Or.inl h
  · exact Or.inr (List.mem_cons_of_mem d h)

theorem notExists_cons {files : List (FsPath × FileContent)}
    {dirs : List FsPath} {d p : FsPath}
    (h : ¬ pathExists ⟨files, dirs⟩ p) (hne : p ≠ d) :
    ¬ pathExists ⟨files, d :: dirs⟩ p := by
  intro hex
  rcases hex with hd | hf
  · rcases hd with hnil | hmem
    · exact h (Or.inl (Or.inl hnil))
    · rcases List.mem_cons.mp hmem with he | hm
      · exact hne he
      · exact h (Or.inl (Or.inr hm))
  · exact h (Or.inr hf)

/-- C5: with a writable parent and fresh targets, directory creation
succeeds creating, in order, the root, `logs`, `logs/cdx` and
`logs/crawl` (each a single-level `mkdir`); running the same creation
again on the result fails with the already-exists error and changes
nothing (a second conversion into the same destination); and when the
`logs` target pre-exists, the root is still created first and the
operation then aborts with the already-exists error, leaving the root in
place (no rollback). -/
theorem claim5_directory_structure (hp : FsPath) (fs : FS)
    (hpar : IsDir fs hp.dropLast)
    (h1 : ¬ pathExists fs hp)
    (h2 : ¬ pathExists fs (hp ++ ["logs"]))
    (h3 : ¬ pathExists fs (hp ++ ["logs", "cdx"]))
    (h4 : ¬ pathExists fs (hp ++ ["logs", "crawl"])) :
    create_directory_structure hp fs =
      .ok ⟨fs.files, (hp ++ ["logs", "crawl"]) :: (hp ++ ["logs", "cdx"]) ::
        (hp ++ ["logs"]) :: hp :: fs.dirs⟩ ∧
    create_directory_structure hp
        ⟨fs.files, (hp ++ ["logs", "crawl"]) :: (hp ++ ["logs", "cdx"]) ::
          (hp ++ ["logs"]) :: hp :: fs.dirs⟩ =
      .err .fileExistsError
        ⟨fs.files, (hp ++ ["logs", "crawl"]) :: (hp ++ ["logs", "cdx"]) ::
          (hp ++ ["logs"]) :: hp :: fs.dirs⟩ ∧
    create_directory_structure hp ⟨fs.files, (hp ++ ["logs"]) :: fs.dirs⟩ =
      .err .fileExistsError ⟨fs.files, hp :: (hp ++ ["logs"]) :: fs.dirs⟩ := by
  have nRL : hp ≠ hp ++ ["logs"] := by
    intro he
    have h' : hp ++ ([] : List String) = hp ++ ["logs"] := by
      rw [List.append_nil]
      exact he
    exact absurd (List.append_cancel_left h') (by decide)
  have nRC : hp ≠ hp ++ ["logs", "cdx"] := by
    intro he
    have h' : hp ++ ([] : List String) = hp ++ ["logs", "cdx"] := by
      rw [List.append_nil]
      exact he
    exact absurd (List.append_cancel_left h') (by decide)
  have nRW : hp ≠ hp ++ ["logs", "crawl"] := by
    intro he
    have h' : hp ++ ([] : List String) = hp ++ ["logs", "crawl"] := by
      rw [List.append_nil]
      exact he
    exact absurd (List.append_cancel_left h') (by decide)
  have nLC : hp ++ ["logs"] ≠ hp ++ ["logs", "cdx"] := hpAppend_ne hp (by decide)
  have nLW : hp ++ ["logs"] ≠ hp ++ ["logs", "crawl"] :=
    hpAppend_ne hp (by decide)
  have nCW : hp ++ ["logs", "cdx"] ≠ hp ++ ["logs", "crawl"] :=
    hpAppend_ne hp (by decide)
  refine ⟨?_, ?_, ?_⟩
  · unfold create_directory_structure
    rw [osMkdir_ok h1 hpar]
    simp only [PResult.bind]
    rw [osMkdir_ok (notExists_cons h2 nRL.symm)
      (by rw [List.dropLast_concat]; exact IsDir_cons_self)]
    simp only [PResult.bind]
    rw [osMkdir_ok
      (notExists_cons (notExists_cons h3 nRC.symm) nLC.symm)
      (by rw [dropLast_pair]; exact IsDir_cons_self)]
    simp only [PResult.bind]
    rw [osMkdir_ok
      (notExists_cons (notExists_cons (notExists_cons h4 nRW.symm) nLW.symm)
        nCW.symm)
      (by rw [dropLast_pair]; exact IsDir_grow IsDir_cons_self)]
  · unfold create_directory_structure
    rw [osMkdir_exists (Or.inl (Or.inr (by simp)))]
    simp only [PResult.bind]
  · unfold create_directory_structure
    rw [osMkdir_ok (notExists_cons h1 nRL) (IsDir_grow hpar)]
    simp only [PResult.bind]
    rw [osMkdir_exists (Or.inl (Or.inr (by simp)))]

/-- Witness for C5 at a concrete destination. -/
theorem claim5_directory_structure_witness :
    IsDir ⟨[], [["out"]]⟩ (["out", "H"] : FsPath).dropLast ∧
    ¬ pathExists ⟨[], [["out"]]⟩ ["out", "H"] ∧
    ¬ pathExists ⟨[], [["out"]]⟩ (["out", "H"] ++ ["logs"]) ∧
    ¬ pathExists ⟨[], [["out"]]⟩ (["out", "H"] ++ ["logs", "cdx"]) ∧
    ¬ pathExists ⟨[], [["out"]]⟩ (["out", "H"] ++ ["logs", "crawl"]) ∧
    (create_directory_structure ["out", "H"] ⟨[], [["out"]]⟩ =
      .ok ⟨[], (["out", "H"] ++ ["logs", "crawl"]) ::
        (["out", "H"] ++ ["logs", "cdx"]) ::
        (["out", "H"] ++ ["logs"]) :: ["out", "H"] :: [["out"]]⟩ ∧
    create_directory_structure ["out", "H"]
        ⟨[], (["out", "H"] ++ ["logs", "crawl"]) ::
          (["out", "H"] ++ ["logs", "cdx"]) ::
          (["out", "H"] ++ ["logs"]) :: ["out", "H"] :: [["out"]]⟩ =
      .err .fileExistsError
        ⟨[], (["out", "H"] ++ ["logs", "crawl"]) ::
          (["out", "H"] ++ ["logs", "cdx"]) ::
          (["out", "H"] ++ ["logs"]) :: ["out", "H"] :: [["out"]]⟩ ∧
    create_directory_structure ["out", "H"]
        ⟨[], (["out", "H"] ++ ["logs"]) :: [["out"]]⟩ =
      .err .fileExistsError
        ⟨[], ["out", "H"] :: (["out", "H"] ++ ["logs"]) :: [["out"]]⟩) :=
  ⟨by decide, by decide, by decide, by decide, by decide,
   claim5_directory_structure ["out", "H"] ⟨[], [["out"]]⟩ (by decide)
     (by decide) (by decide) (by decide) (by decide)⟩

/-! ## Claim C6 -/

theorem osRename_file_ok {fs : FS} {src dst : FsPath} {c : FileContent}
    (hsrc : lookupFS fs.files src = some c) (hdst : ¬ IsDir fs dst)
    (hpar : IsDir fs dst.dropLast) :
    osRename src dst fs =
      .ok ⟨(dst, c) :: fs.files.filter (fun kv => kv.1 ≠ src ∧ kv.1 ≠ dst),
           fs.dirs⟩ := by
  simp [osRename, hsrc, hdst, hpar]

theorem lookupFS_filter_none (l : List (FsPath × FileContent))
    (pred : FsPath × FileContent → Bool) (q : FsPath)
    (h : ∀ kv ∈ l, pred kv = true → kv.1 ≠ q) :
    lookupFS (l.filter pred) q = none := by
  rw [lookupFS_none_iff]
  intro kv hkv
  have hm := List.mem_filter.mp hkv
  exact h kv hm.1 hm.2

/-- C6: after relocation, when `data.warc.gz` exists at the destination
root it is renamed to `<collection-identifier>.warc.gz`: it is absent
under the original name, present with identical contents under the new
name, and other entries keep their keys; when no such file exists the
rename step is a silent no-op. -/
theorem claim6_rename_data_warc (hp : FsPath) (fs : FS) (hn : String)
    (c : FileContent)
    (hsrc : lookupFS fs.files (hp ++ ["data.warc.gz"]) = some c)
    (hsl : '/' ∉ hn.data)
    (hname : hn ≠ "data")
    (hndat : ¬ IsDir fs (hp ++ ["data.warc.gz"]))
    (hncor : ¬ IsDir fs (hp ++ [hn ++ ".warc.gz"]))
    (hdirhp : IsDir fs hp) :
    renameDataWarc hp hn fs =
      .ok ⟨(hp ++ [hn ++ ".warc.gz"], c) ::
        fs.files.filter (fun kv =>
          kv.1 ≠ hp ++ ["data.warc.gz"] ∧ kv.1 ≠ hp ++ [hn ++ ".warc.gz"]),
        fs.dirs⟩ ∧
    lookupFS ((hp ++ [hn ++ ".warc.gz"], c) ::
        fs.files.filter (fun kv =>
          kv.1 ≠ hp ++ ["data.warc.gz"] ∧ kv.1 ≠ hp ++ [hn ++ ".warc.gz"]))
        (hp ++ ["data.warc.gz"]) = none ∧
    lookupFS ((hp ++ [hn ++ ".warc.gz"], c) ::
        fs.files.filter (fun kv =>
          kv.1 ≠ hp ++ ["data.warc.gz"] ∧ kv.1 ≠ hp ++ [hn ++ ".warc.gz"]))
        (hp ++ [hn ++ ".warc.gz"]) = some c ∧
    renameDataWarc hp hn
        ⟨fs.files.filter (fun kv => kv.1 ≠ hp ++ ["data.warc.gz"]), fs.dirs⟩ =
      .ok ⟨fs.files.filter (fun kv => kv.1 ≠ hp ++ ["data.warc.gz"]),
           fs.dirs⟩ := by
  have hcne : (hn ++ ".warc.gz") ≠ "data.warc.gz" := by
    intro he
    have h0 := congrArg String.data he
    rw [String.data_append] at h0
    rw [show ("data.warc.gz").data = "data".data ++ ".warc.gz".data from rfl]
      at h0
    have h1 := List.append_cancel_right h0
    have h2 := congrArg (fun l => (⟨l⟩ : String)) h1
    exact hname h2
  have hne0 : (hn ++ ".warc.gz") ≠ "" := by
    intro he
    have h0 := congrArg String.data he
    rw [String.data_append, show ("" : String).data = [] from rfl] at h0
    rcases List.append_eq_nil.mp h0 with ⟨_, h9⟩
    exact absurd h9 (by decide)
  have hslc : '/' ∉ (hn ++ ".warc.gz").data := by
    rw [String.data_append, List.mem_append]
    rintro (hx | hx)
    · exact hsl hx
    · exact absurd hx (by decide)
  have hcomps1 : comps "data.warc.gz" = ["data.warc.gz"] := rfl
  have hcomps2 : comps (hn ++ ".warc.gz") = [hn ++ ".warc.gz"] :=
    comps_no_slash _ hslc hne0
  have hlist : ([hn ++ ".warc.gz"] : List String) ≠ ["data.warc.gz"] := by
    intro he
    injection he with h1 _
    exact hcne h1
  have hne2 : hp ++ [hn ++ ".warc.gz"] ≠ hp ++ ["data.warc.gz"] :=
    hpAppend_ne hp hlist
  have hfile : IsFile fs (hp ++ ["data.warc.gz"]) := by
    show (lookupFS fs.files (hp ++ ["data.warc.gz"])).isSome = true
    rw [hsrc]
    rfl
  have hex : pathExists fs (hp ++ ["data.warc.gz"]) := Or.inr hfile
  refine ⟨?_, ?_, ?_, ?_⟩
  · simp only [renameDataWarc, hcomps1, hcomps2]
    rw [if_pos hex]
    rw [osRename_file_ok hsrc hncor
      (by rw [List.dropLast_concat]; exact hdirhp)]
  · rw [lookupFS_cons]
    rw [if_neg hne2]
    apply lookupFS_filter_none
    intro kv _ hpred
    have := of_decide_eq_true hpred
    exact this.1
  · rw [lookupFS_cons]
    rw [if_pos rfl]
  · simp only [renameDataWarc, hcomps1, hcomps2]
    have hnex : ¬ pathExists
        ⟨fs.files.filter (fun kv => kv.1 ≠ hp ++ ["data.warc.gz"]), fs.dirs⟩
        (hp ++ ["data.warc.gz"]) := by
      intro hex2
      rcases (show IsDir ⟨fs.files.filter
            (fun kv => kv.1 ≠ hp ++ ["data.warc.gz"]), fs.dirs⟩
            (hp ++ ["data.warc.gz"]) ∨ IsFile ⟨fs.files.filter
            (fun kv => kv.1 ≠ hp ++ ["data.warc.gz"]), fs.dirs⟩
            (hp ++ ["data.warc.gz"]) from hex2) with hd | hf
      · exact hndat hd
      · have hlk : lookupFS
            (fs.files.filter (fun kv => kv.1 ≠ hp ++ ["data.warc.gz"]))
            (hp ++ ["data.warc.gz"]) = none := by
          apply lookupFS_filter_none
          intro kv _ hpred
          exact of_decide_eq_true hpred
        rw [IsFile, hlk] at hf
        exact absurd hf (by decide)
    rw [if_neg hnex]

/-- Witness for C6 at a concrete harvest. -/
theorem claim6_rename_data_warc_witness :
    (lookupFS [((["out", "data.warc.gz"] : FsPath), FileContent.bytes [5])]
        (["out"] ++ ["data.warc.gz"]) = some (.bytes [5])) ∧
    (renameDataWarc ["out"] "Linkra-2024-03-c"
        ⟨[(["out", "data.warc.gz"], .bytes [5])], [["out"]]⟩ =
      .ok ⟨(["out"] ++ ["Linkra-2024-03-c" ++ ".warc.gz"], .bytes [5]) ::
        ([((["out", "data.warc.gz"] : FsPath), FileContent.bytes [5])].filter
          (fun kv => kv.1 ≠ ["out"] ++ ["data.warc.gz"] ∧
            kv.1 ≠ ["out"] ++ ["Linkra-2024-03-c" ++ ".warc.gz"])),
        [["out"]]⟩ ∧
    lookupFS ((["out"] ++ ["Linkra-2024-03-c" ++ ".warc.gz"],
        FileContent.bytes [5]) ::
        ([((["out", "data.warc.gz"] : FsPath), FileContent.bytes [5])].filter
          (fun kv => kv.1 ≠ ["out"] ++ ["data.warc.gz"] ∧
            kv.1 ≠ ["out"] ++ ["Linkra-2024-03-c" ++ ".warc.gz"])))
        (["out"] ++ ["data.warc.gz"]) = none ∧
    lookupFS ((["out"] ++ ["Linkra-2024-03-c" ++ ".warc.gz"],
        FileContent.bytes [5]) ::
        ([((["out", "data.warc.gz"] : FsPath), FileContent.bytes [5])].filter
          (fun kv => kv.1 ≠ ["out"] ++ ["data.warc.gz"] ∧
            kv.1 ≠ ["out"] ++ ["Linkra-2024-03-c" ++ ".warc.gz"])))
        (["out"] ++ ["Linkra-2024-03-c" ++ ".warc.gz"]) = some (.bytes [5]) ∧
    renameDataWarc ["out"] "Linkra-2024-03-c"
        ⟨[((["out", "data.warc.gz"] : FsPath), FileContent.bytes [5])].filter
          (fun kv => kv.1 ≠ ["out"] ++ ["data.warc.gz"]), [["out"]]⟩ =
      .ok ⟨[((["out", "data.warc.gz"] : FsPath), FileContent.bytes [5])].filter
          (fun kv => kv.1 ≠ ["out"] ++ ["data.warc.gz"]), [["out"]]⟩) :=
  ⟨rfl,
   claim6_rename_data_warc ["out"]
     ⟨[(["out", "data.warc.gz"], .bytes [5])], [["out"]]⟩ "Linkra-2024-03-c"
     (.bytes [5]) rfl (by decide) (by decide) (by decide) (by decide)
     (by decide)⟩

/-! ## Extraction-loop step lemmas -/

theorem isPrefixOf_self (l : FsPath) : l.isPrefixOf l = true :=
  List.isPrefixOf_iff_prefix.mpr (List.prefix_refl l)

theorem strData_ne_nil {n : String} (h : n ≠ "") : n.data ≠ [] := by
  intro hd
  apply h
  have he : n = (⟨n.data⟩ : String) := rfl
  rw [he, hd]

theorem isDirEntryName_archive_entry (n : String) (hn0 : n ≠ "")
    (hnsl : '/' ∉ n.data) : isDirEntryName ("archive/" ++ n) = false := by
  unfold isDirEntryName
  rw [String.data_append]
  rw [List.getLast?_append_of_ne_nil _ (strData_ne_nil hn0)]
  apply decide_eq_false
  intro he
  exact hnsl (List.mem_of_mem_getLast? he)

theorem zipExtract_unfold (fn : String) (bs : List Nat) (tp : FsPath) (fs : FS) :
    zipExtract ⟨fn, bs⟩ tp fs =
      (if (tp ++ comps fn).dropLast ≠ [] ∧
          ¬ pathExists fs (tp ++ comps fn).dropLast then
        osMakedirs (tp ++ comps fn).dropLast fs
      else .ok fs).bind (fun fs2 =>
        if isDirEntryName fn then
          if ¬ IsDir fs2 (tp ++ comps fn) then osMkdir (tp ++ comps fn) fs2
          else .ok fs2
        else writeFileFS (tp ++ comps fn) (.bytes bs) fs2) := rfl

theorem extractLoop_nil (fromPath : String) (tp : FsPath) (fs : FS) :
    extractLoop fromPath tp [] fs = .ok fs := rfl

theorem extractLoop_cons_match (fromPath : String) (tp : FsPath)
    (e : ZipEntry) (rest : List ZipEntry) (fs : FS)
    (h : pyStartsWith e.filename fromPath = true) :
    extractLoop fromPath tp (e :: rest) fs =
      (zipExtract e tp fs).bind (fun fs1 =>
      (shutilMove (tp ++ comps e.filename)
          (tp ++ comps (ospathBasename e.filename)) fs1).bind (fun fs2 =>
      (osRmdir (tp ++ comps fromPath) fs2).bind (fun fs3 =>
      extractLoop fromPath tp rest fs3))) := by
  rw [extractLoop, if_pos h]

theorem extractLoop_cons_skip (fromPath : String) (tp : FsPath)
    (e : ZipEntry) (rest : List ZipEntry) (fs : FS)
    (h : pyStartsWith e.filename fromPath = false) :
    extractLoop fromPath tp (e :: rest) fs =
      extractLoop fromPath tp rest fs := by
  rw [extractLoop, if_neg (by rw [h]; exact Bool.false_ne_true)]

theorem osMakedirs_base {p : FsPath} {fs : FS}
    (h : ¬ (p.dropLast ≠ [] ∧ ¬ pathExists fs p.dropLast)) :
    osMakedirs p fs = osMkdir p fs := by
  unfold osMakedirs
  cases hl : p.length with
  | zero => rfl
  | succ m =>
    rw [show osMakedirsAux (m + 1) p fs =
      if p.dropLast ≠ [] ∧ ¬ pathExists fs p.dropLast then
        (osMakedirsAux m p.dropLast fs).bind (fun fs2 => osMkdir p fs2)
      else osMkdir p fs from rfl]
    rw [if_neg h]

theorem prefixOf_concat_self (l : FsPath) (a b : String) :
    (l ++ [a]).isPrefixOf (l ++ [a, b]) = true := by
  rw [show l ++ [a, b] = (l ++ [a]) ++ [b] from (List.append_assoc l [a] [b]).symm]
  exact isPrefixOf_append_self _ _

theorem zipExtract_flat_ok (tp : FsPath) (n : String) (bs : List Nat) (fs : FS)
    (hn0 : n ≠ "") (hnsl : '/' ∉ n.data)
    (htp : IsDir fs tp)
    (hcleanD : ∀ d ∈ fs.dirs, ((tp ++ ["archive"]).isPrefixOf d) = false)
    (hcleanF : ∀ kv ∈ fs.files, ((tp ++ ["archive"]).isPrefixOf kv.1) = false) :
    zipExtract ⟨"archive/" ++ n, bs⟩ tp fs =
      .ok ⟨(tp ++ ["archive", n], .bytes bs) :: fs.files,
           (tp ++ ["archive"]) :: fs.dirs⟩ := by
  have hAd : ¬ IsDir fs (tp ++ ["archive"]) := by
    intro hd
    rcases (show (tp ++ ["archive"] : FsPath) = [] ∨
        tp ++ ["archive"] ∈ fs.dirs from hd) with h0 | hmem
    · simp at h0
    · have hb := hcleanD _ hmem
      rw [isPrefixOf_self] at hb
      exact absurd hb (by decide)
  have hAf : lookupFS fs.files (tp ++ ["archive"]) = none := by
    rw [lookupFS_none_iff]
    intro kv hkv he
    have hb := hcleanF kv hkv
    rw [he, isPrefixOf_self] at hb
    exact absurd hb (by decide)
  have hAex : ¬ pathExists fs (tp ++ ["archive"]) := by
    intro hex
    rcases (show IsDir fs (tp ++ ["archive"]) ∨ IsFile fs (tp ++ ["archive"])
        from hex) with hd | hf
    · exact hAd hd
    · rw [IsFile, hAf] at hf
      exact absurd hf (by decide)
  have hTd : ¬ IsDir ⟨fs.files, (tp ++ ["archive"]) :: fs.dirs⟩
      (tp ++ ["archive", n]) := by
    intro hd
    rcases (show (tp ++ ["archive", n] : FsPath) = [] ∨
        tp ++ ["archive", n] ∈ (tp ++ ["archive"]) :: fs.dirs from hd) with
      h0 | hmem
    · simp at h0
    · rcases List.mem_cons.mp hmem with he | hm
      · have := congrArg List.length (List.append_cancel_left he)
        simp at this
      · have hb := hcleanD _ hm
        rw [prefixOf_concat_self] at hb
        exact absurd hb (by decide)
  rw [zipExtract_unfold]
  rw [comps_archive_entry n hn0 hnsl]
  rw [show (tp ++ ["archive", n]).dropLast = tp ++ ["archive"] from
    dropLast_pair tp "archive" n]
  rw [if_pos (⟨by simp, hAex⟩ :
    (tp ++ ["archive"] : FsPath) ≠ [] ∧ ¬ pathExists fs (tp ++ ["archive"]))]
  rw [osMakedirs_base (by
    intro hcc
    rw [List.dropLast_concat] at hcc
    exact hcc.2 (Or.inl htp))]
  rw [osMkdir_ok hAex (by rw [List.dropLast_concat]; exact htp)]
  simp only [PResult.bind]
  rw [isDirEntryName_archive_entry n hn0 hnsl]
  rw [if_neg (by decide)]
  unfold writeFileFS
  rw [if_neg hTd]
  rw [if_pos (by
    rw [show (tp ++ ["archive", n]).dropLast = tp ++ ["archive"] from
      dropLast_pair tp "archive" n]
    exact IsDir_cons_self)]
  have hfe : List.filter
      (fun kv => decide (kv.1 ≠ tp ++ ["archive", n]))
      (FS.mk fs.files ((tp ++ ["archive"]) :: fs.dirs)).files = fs.files := by
    apply List.filter_eq_self.mpr
    intro kv hkv
    apply decide_eq_true
    intro he
    have hb := hcleanF kv hkv
    rw [he] at hb
    rw [prefixOf_concat_self] at hb
    exact absurd hb (by decide)
  rw [hfe]

theorem shutilMove_flat_ok (tp : FsPath) (n : String) (bs : List Nat) (fs : FS)
    (hnarch : n ≠ "archive")
    (htp : IsDir fs tp)
    (hdstd : ¬ IsDir fs (tp ++ [n]))
    (hdstf : lookupFS fs.files (tp ++ [n]) = none)
    (hcleanF : ∀ kv ∈ fs.files, ((tp ++ ["archive"]).isPrefixOf kv.1) = false) :
    shutilMove (tp ++ ["archive", n]) (tp ++ [n])
        ⟨(tp ++ ["archive", n], .bytes bs) :: fs.files,
         (tp ++ ["archive"]) :: fs.dirs⟩ =
      .ok ⟨(tp ++ [n], .bytes bs) :: fs.files,
           (tp ++ ["archive"]) :: fs.dirs⟩ := by
  have hDA : tp ++ [n] ≠ tp ++ ["archive"] := hpAppend_ne tp (by
    intro he
    injection he with h1 _
    exact hnarch h1)
  have hDd1 : ¬ IsDir ⟨(tp ++ ["archive", n], FileContent.bytes bs) :: fs.files,
      (tp ++ ["archive"]) :: fs.dirs⟩ (tp ++ [n]) := by
    intro hd
    rcases (show (tp ++ [n] : FsPath) = [] ∨
        tp ++ [n] ∈ (tp ++ ["archive"]) :: fs.dirs from hd) with h0 | hmem
    · simp at h0
    · rcases List.mem_cons.mp hmem with he | hm
      · exact hDA he
      · exact hdstd (Or.inr hm)
  unfold shutilMove
  rw [if_neg hDd1]
  rw [osRename_file_ok lookupFS_cons_self hDd1
    (by rw [List.dropLast_concat]; exact IsDir_grow htp)]
  have hfe : List.filter
      (fun kv => decide (kv.1 ≠ tp ++ ["archive", n] ∧ kv.1 ≠ tp ++ [n]))
      ((tp ++ ["archive", n], FileContent.bytes bs) :: fs.files) =
      fs.files := by
    rw [List.filter_cons]
    rw [if_neg (by simp)]
    apply List.filter_eq_self.mpr
    intro kv hkv
    apply decide_eq_true
    constructor
    · intro he
      have hb := hcleanF kv hkv
      rw [he, prefixOf_concat_self] at hb
      exact absurd hb (by decide)
    · intro he
      have := (lookupFS_none_iff fs.files (tp ++ [n])).mp hdstf kv hkv
      exact this he
  rw [hfe]

theorem osRmdir_archive_ok (tp : FsPath) (n : String) (bs : List Nat) (fs : FS)
    (hnarch : n ≠ "archive")
    (hcleanD : ∀ d ∈ fs.dirs, ((tp ++ ["archive"]).isPrefixOf d) = false)
    (hcleanF : ∀ kv ∈ fs.files, ((tp ++ ["archive"]).isPrefixOf kv.1) = false) :
    osRmdir (tp ++ ["archive"])
        ⟨(tp ++ [n], .bytes bs) :: fs.files, (tp ++ ["archive"]) :: fs.dirs⟩ =
      .ok ⟨(tp ++ [n], .bytes bs) :: fs.files, fs.dirs⟩ := by
  have hDA : tp ++ [n] ≠ tp ++ ["archive"] := hpAppend_ne tp (by
    intro he
    injection he with h1 _
    exact hnarch h1)
  have hAD : List.isPrefixOf (tp ++ ["archive"]) (tp ++ [n]) = false := by
    cases hb : List.isPrefixOf (tp ++ ["archive"]) (tp ++ [n])
    · rfl
    · exact absurd (eq_of_isPrefixOf_append_singleton hb)
        (fun he => hnarch he.symm)
  have hAf : lookupFS fs.files (tp ++ ["archive"]) = none := by
    rw [lookupFS_none_iff]
    intro kv hkv he
    have hb := hcleanF kv hkv
    rw [he, isPrefixOf_self] at hb
    exact absurd hb (by decide)
  have hnf : ¬ IsFile ⟨(tp ++ [n], FileContent.bytes bs) :: fs.files,
      (tp ++ ["archive"]) :: fs.dirs⟩ (tp ++ ["archive"]) := by
    rw [IsFile]
    rw [lookupFS_cons_ne (by exact hDA)]
    rw [hAf]
    decide
  have hch : hasChild ⟨(tp ++ [n], FileContent.bytes bs) :: fs.files,
      (tp ++ ["archive"]) :: fs.dirs⟩ (tp ++ ["archive"]) = false := by
    unfold hasChild
    rw [Bool.or_eq_false_iff]
    constructor
    · rw [List.any_eq_false]
      intro q hq
      rcases List.mem_cons.mp hq with he | hm
      · rw [he]
        simp
      · have hb := hcleanD _ hm
        rw [hb]
        simp
    · rw [List.any_eq_false]
      intro kv hkv
      rcases List.mem_cons.mp hkv with he | hm
      · rw [he]
        rw [show ((tp ++ [n], FileContent.bytes bs)).1 = tp ++ [n] from rfl]
        rw [hAD]
        simp
      · have hb := hcleanF _ hm
        rw [hb]
        simp
  unfold osRmdir
  rw [if_neg hnf]
  rw [if_neg (by
    intro hcc
    exact hcc IsDir_cons_self)]
  rw [hch]
  rw [if_neg (by decide)]
  rw [if_neg (by simp)]
  have hde : List.filter (fun d => decide (d ≠ tp ++ ["archive"]))
      ((tp ++ ["archive"]) :: fs.dirs) = fs.dirs := by
    rw [List.filter_cons]
    rw [if_neg (by simp)]
    apply List.filter_eq_self.mpr
    intro d hd
    apply decide_eq_true
    intro he
    have hb := hcleanD _ hd
    rw [he, isPrefixOf_self] at hb
    exact absurd hb (by decide)
  rw [hde]

/-- One full iteration of the extraction loop on a flat entry
`archive/<n>` rewrites the state by placing the file at `tp/<n>` and
leaving the directories as they were. -/
theorem extractStep (tp : FsPath) (n : String) (bs : List Nat) (fs : FS)
    (k : FS → PResult)
    (hn0 : n ≠ "") (hnsl : '/' ∉ n.data) (hnarch : n ≠ "archive")
    (htp : IsDir fs tp)
    (hdstd : ¬ IsDir fs (tp ++ [n]))
    (hdstf : lookupFS fs.files (tp ++ [n]) = none)
    (hcleanD : ∀ d ∈ fs.dirs, ((tp ++ ["archive"]).isPrefixOf d) = false)
    (hcleanF : ∀ kv ∈ fs.files, ((tp ++ ["archive"]).isPrefixOf kv.1) = false) :
    (zipExtract ⟨"archive/" ++ n, bs⟩ tp fs).bind (fun fs1 =>
      (shutilMove (tp ++ comps ("archive/" ++ n))
          (tp ++ comps (ospathBasename ("archive/" ++ n))) fs1).bind
        (fun fs2 =>
      (osRmdir (tp ++ comps "archive/") fs2).bind (fun fs3 => k fs3))) =
    k ⟨(tp ++ [n], .bytes bs) :: fs.files, fs.dirs⟩ := by
  rw [zipExtract_flat_ok tp n bs fs hn0 hnsl htp hcleanD hcleanF]
  simp only [PResult.bind]
  rw [comps_archive_entry n hn0 hnsl]
  rw [ospathBasename_archive n hnsl]
  rw [comps_no_slash n hnsl hn0]
  rw [shutilMove_flat_ok tp n bs fs hnarch htp hdstd hdstf hcleanF]
  simp only [PResult.bind]
  rw [show comps "archive/" = ["archive"] from rfl]
  rw [osRmdir_archive_ok tp n bs fs hnarch hcleanD hcleanF]

/-- `extractStep` restated for an arbitrary entry known to live directly
under the prefix. -/
theorem extractStepEntry (tp : FsPath) (e : ZipEntry) (n : String) (fs : FS)
    (k : FS → PResult)
    (hfn : e.filename = "archive/" ++ n)
    (hn0 : n ≠ "") (hnsl : '/' ∉ n.data) (hnarch : n ≠ "archive")
    (htp : IsDir fs tp)
    (hdstd : ¬ IsDir fs (tp ++ [n]))
    (hdstf : lookupFS fs.files (tp ++ [n]) = none)
    (hcleanD : ∀ d ∈ fs.dirs, ((tp ++ ["archive"]).isPrefixOf d) = false)
    (hcleanF : ∀ kv ∈ fs.files, ((tp ++ ["archive"]).isPrefixOf kv.1) = false) :
    (zipExtract e tp fs).bind (fun fs1 =>
      (shutilMove (tp ++ comps e.filename)
          (tp ++ comps (ospathBasename e.filename)) fs1).bind
        (fun fs2 =>
      (osRmdir (tp ++ comps "archive/") fs2).bind (fun fs3 => k fs3))) =
    k ⟨(tp ++ [n], .bytes e.bytes) :: fs.files, fs.dirs⟩ := by
  obtain ⟨fn, bs⟩ := e
  have hfn2 : fn = "archive/" ++ n := hfn
  subst hfn2
  exact extractStep tp n bs fs k hn0 hnsl hnarch htp hdstd hdstf hcleanD hcleanF

/-- The entries of the list that match the `archive/` prefix. -/
def archiveMatches (es : List ZipEntry) : List ZipEntry :=
  es.filter (fun e => pyStartsWith e.filename "archive/")

/-- The flat destination entries the relocation is expected to produce:
one file per matching entry, under the entry's final path component,
with the entry's bytes. -/
def flatPairs (tp : FsPath) (es : List ZipEntry) :
    List (FsPath × FileContent) :=
  (archiveMatches es).map
    (fun e => (tp ++ [ospathBasename e.filename], FileContent.bytes e.bytes))

theorem archiveMatches_cons_pos {e : ZipEntry} {rest : List ZipEntry}
    (h : pyStartsWith e.filename "archive/" = true) :
    archiveMatches (e :: rest) = e :: archiveMatches rest := by
  simp [archiveMatches, List.filter_cons, h]

theorem archiveMatches_cons_neg {e : ZipEntry} {rest : List ZipEntry}
    (h : pyStartsWith e.filename "archive/" = false) :
    archiveMatches (e :: rest) = archiveMatches rest := by
  simp [archiveMatches, List.filter_cons, h]

theorem flatPairs_cons_pos {tp : FsPath} {e : ZipEntry} {rest : List ZipEntry}
    (h : pyStartsWith e.filename "archive/" = true) :
    flatPairs tp (e :: rest) =
      (tp ++ [ospathBasename e.filename], FileContent.bytes e.bytes) ::
        flatPairs tp rest := by
  unfold flatPairs
  rw [archiveMatches_cons_pos h]
  rfl

theorem flatPairs_cons_neg {tp : FsPath} {e : ZipEntry} {rest : List ZipEntry}
    (h : pyStartsWith e.filename "archive/" = false) :
    flatPairs tp (e :: rest) = flatPairs tp rest := by
  unfold flatPairs
  rw [archiveMatches_cons_neg h]

/-- The extraction loop on a list of entries that all live directly
under `archive/`, with pairwise distinct and fresh basenames, succeeds
and lands every matching entry flat at the destination. -/
theorem extractLoop_flat_ok (tp : FsPath) (es : List ZipEntry) :
    ∀ fs : FS,
      IsDir fs tp →
      (∀ d ∈ fs.dirs, ((tp ++ ["archive"]).isPrefixOf d) = false) →
      (∀ kv ∈ fs.files, ((tp ++ ["archive"]).isPrefixOf kv.1) = false) →
      (∀ e ∈ es, pyStartsWith e.filename "archive/" = true →
        e.filename = "archive/" ++ ospathBasename e.filename ∧
        ospathBasename e.filename ≠ "" ∧
        ospathBasename e.filename ≠ "archive") →
      (∀ e ∈ es, pyStartsWith e.filename "archive/" = true →
        ¬ IsDir fs (tp ++ [ospathBasename e.filename]) ∧
        lookupFS fs.files (tp ++ [ospathBasename e.filename]) = none) →
      ((archiveMatches es).map (fun e => ospathBasename e.filename)).Nodup →
      extractLoop "archive/" tp es fs =
        .ok ⟨(flatPairs tp es).reverse ++ fs.files, fs.dirs⟩ := by
  induction es with
  | nil =>
    intro fs _ _ _ _ _ _
    rw [extractLoop_nil]
    rw [show flatPairs tp [] = [] from rfl]
    rfl
  | cons e rest ih =>
    intro fs htp hcD hcF hshape hfresh hnd
    cases hm : pyStartsWith e.filename "archive/" with
    | false =>
      rw [extractLoop_cons_skip _ _ _ _ _ hm]
      rw [flatPairs_cons_neg hm]
      refine ih fs htp hcD hcF ?_ ?_ ?_
      · intro e2 hm2 hs2
        exact hshape e2 (List.mem_cons_of_mem e hm2) hs2
      · intro e2 hm2 hs2
        exact hfresh e2 (List.mem_cons_of_mem e hm2) hs2
      · rw [archiveMatches_cons_neg hm] at hnd
        exact hnd
    | true =>
      obtain ⟨hfn, hn0, hnarch⟩ := hshape e (List.mem_cons_self e rest) hm
      obtain ⟨hdstd, hdstf⟩ := hfresh e (List.mem_cons_self e rest) hm
      have hnsl : '/' ∉ (ospathBasename e.filename).data :=
        ospathBasename_no_slash e.filename
      have hAD : List.isPrefixOf (tp ++ ["archive"])
          (tp ++ [ospathBasename e.filename]) = false := by
        cases hb : List.isPrefixOf (tp ++ ["archive"])
            (tp ++ [ospathBasename e.filename])
        · rfl
        · exact absurd (eq_of_isPrefixOf_append_singleton hb)
            (fun he => hnarch he.symm)
      rw [extractLoop_cons_match _ _ _ _ _ hm]
      rw [extractStepEntry tp e (ospathBasename e.filename) fs
        (fun fs3 => extractLoop "archive/" tp rest fs3)
        hfn hn0 hnsl hnarch htp hdstd hdstf hcD hcF]
      rw [archiveMatches_cons_pos hm] at hnd
      have hnd2 := hnd
      rw [List.map_cons, List.nodup_cons] at hnd2
      rw [ih ⟨(tp ++ [ospathBasename e.filename], .bytes e.bytes) :: fs.files,
          fs.dirs⟩
        htp hcD
        (by
          intro kv hkv
          rcases List.mem_cons.mp hkv with he2 | hm2
          · rw [he2]
            exact hAD
          · exact hcF kv hm2)
        (by
          intro e2 hm2 hs2
          exact hshape e2 (List.mem_cons_of_mem e hm2) hs2)
        (by
          intro e2 hm2 hs2
          have hne : ospathBasename e2.filename ≠ ospathBasename e.filename := by
            intro heq
            apply hnd2.1
            rw [← heq]
            apply List.mem_map.mpr
            refine ⟨e2, ?_, rfl⟩
            unfold archiveMatches
            exact List.mem_filter.mpr ⟨hm2, hs2⟩
          refine ⟨(hfresh e2 (List.mem_cons_of_mem e hm2) hs2).1, ?_⟩
          rw [lookupFS_cons_ne (by
            show tp ++ [ospathBasename e.filename] ≠
              tp ++ [ospathBasename e2.filename]
            exact hpAppend_ne tp (by
              intro he3
              injection he3 with h4 _
              exact hne h4.symm))]
          exact (hfresh e2 (List.mem_cons_of_mem e hm2) hs2).2)
        hnd2.2]
      rw [flatPairs_cons_pos hm]
      rw [List.reverse_cons]
      rw [List.append_assoc]
      rfl

/-! ## Claim C3 -/

/-- C3 counterexample: an archive with a nested entry
`archive/sub/a.warc` followed by a flat entry `archive/b.warc`.  After
flattening the nested entry, `os.rmdir` hits the non-empty intermediate
directory `out/archive` (it still contains `sub`) and the relocation
aborts with a directory-not-empty error; the later matching entry
`archive/b.warc` never appears in the destination.  The claim's promise
for entries nested below the prefix is false. -/
theorem claim3_counterexample :
    extract_from_to
        ⟨"h.wacz", [⟨"archive/sub/a.warc", [1]⟩, ⟨"archive/b.warc", [2]⟩], none⟩
        "archive/" ["out"] ⟨[], [["out"]]⟩ =
      .err .dirNotEmptyError
        ⟨[(["out", "a.warc"], .bytes [1])],
         [["out", "archive", "sub"], ["out", "archive"], ["out"]]⟩ ∧
    (pyStartsWith "archive/b.warc" "archive/" = true) ∧
    lookupFS [((["out", "a.warc"] : FsPath), FileContent.bytes [1])]
      ["out", "b.warc"] = none := by
  refine ⟨by decide, by decide, by decide⟩

/-- C3 amended: when every matching entry lies *directly* under the
`archive/` prefix (one nonempty path component, not named `archive`),
with pairwise distinct basenames that are fresh at the destination, the
relocation succeeds and every matching entry appears byte-identical in
the flat destination under its final path component; with no matching
entries it succeeds trivially, leaving the filesystem unchanged.
(Entries nested deeper abort the relocation, see the counterexample.) -/
theorem claim3_relocation (z : ZipFileM) (tp : FsPath) (fs : FS)
    (htp : IsDir fs tp)
    (hcD : ∀ d ∈ fs.dirs, ((tp ++ ["archive"]).isPrefixOf d) = false)
    (hcF : ∀ kv ∈ fs.files, ((tp ++ ["archive"]).isPrefixOf kv.1) = false)
    (hshape : ∀ e ∈ z.filelist, pyStartsWith e.filename "archive/" = true →
        e.filename = "archive/" ++ ospathBasename e.filename ∧
        ospathBasename e.filename ≠ "" ∧ ospathBasename e.filename ≠ "archive")
    (hfresh : ∀ e ∈ z.filelist, pyStartsWith e.filename "archive/" = true →
        ¬ IsDir fs (tp ++ [ospathBasename e.filename]) ∧
        lookupFS fs.files (tp ++ [ospathBasename e.filename]) = none)
    (hnd : ((archiveMatches z.filelist).map
        (fun e => ospathBasename e.filename)).Nodup) :
    extract_from_to z "archive/" tp fs =
      .ok ⟨(flatPairs tp z.filelist).reverse ++ fs.files, fs.dirs⟩ ∧
    (∀ e ∈ z.filelist, pyStartsWith e.filename "archive/" = true →
      (tp ++ [ospathBasename e.filename], FileContent.bytes e.bytes) ∈
        (flatPairs tp z.filelist).reverse ++ fs.files) ∧
    ((∀ e ∈ z.filelist, pyStartsWith e.filename "archive/" = false) →
      extract_from_to z "archive/" tp fs = .ok fs) := by
  have hmain : extract_from_to z "archive/" tp fs =
      .ok ⟨(flatPairs tp z.filelist).reverse ++ fs.files, fs.dirs⟩ :=
    extractLoop_flat_ok tp z.filelist fs htp hcD hcF hshape hfresh hnd
  refine ⟨hmain, ?_, ?_⟩
  · intro e hm hs
    apply List.mem_append.mpr
    apply Or.inl
    apply List.mem_reverse.mpr
    apply List.mem_map.mpr
    refine ⟨e, ?_, rfl⟩
    unfold archiveMatches
    exact List.mem_filter.mpr ⟨hm, hs⟩
  · intro hnone
    have hemp : archiveMatches z.filelist = [] := by
      unfold archiveMatches
      apply List.filter_eq_nil_iff.mpr
      intro e hm
      rw [hnone e hm]
      decide
    rw [hmain]
    rw [show flatPairs tp z.filelist = [] from by
      unfold flatPairs
      rw [hemp]
      rfl]
    rfl

/-- Witness for the amended C3: two flat capture files and one ignored
index entry. -/
theorem claim3_relocation_witness :
    IsDir ⟨[], [["out"]]⟩ ["out"] ∧
    (∀ d ∈ (FS.mk [] [["out"]]).dirs,
      ((["out"] ++ ["archive"]).isPrefixOf d) = false) ∧
    (∀ kv ∈ (FS.mk [] [["out"]]).files,
      ((["out"] ++ ["archive"]).isPrefixOf kv.1) = false) ∧
    (∀ e ∈ (ZipFileM.mk "h.wacz"
        [⟨"archive/a.warc", [1]⟩, ⟨"indexes/i.cdx", [9]⟩,
         ⟨"archive/b.warc", [2]⟩] none).filelist,
      pyStartsWith e.filename "archive/" = true →
        e.filename = "archive/" ++ ospathBasename e.filename ∧
        ospathBasename e.filename ≠ "" ∧
        ospathBasename e.filename ≠ "archive") ∧
    (∀ e ∈ (ZipFileM.mk "h.wacz"
        [⟨"archive/a.warc", [1]⟩, ⟨"indexes/i.cdx", [9]⟩,
         ⟨"archive/b.warc", [2]⟩] none).filelist,
      pyStartsWith e.filename "archive/" = true →
        ¬ IsDir ⟨[], [["out"]]⟩ (["out"] ++ [ospathBasename e.filename]) ∧
        lookupFS (FS.mk [] [["out"]]).files
          (["out"] ++ [ospathBasename e.filename]) = none) ∧
    (((archiveMatches (ZipFileM.mk "h.wacz"
        [⟨"archive/a.warc", [1]⟩, ⟨"indexes/i.cdx", [9]⟩,
         ⟨"archive/b.warc", [2]⟩] none).filelist).map
        (fun e => ospathBasename e.filename)).Nodup) ∧
    (extract_from_to (ZipFileM.mk "h.wacz"
        [⟨"archive/a.warc", [1]⟩, ⟨"indexes/i.cdx", [9]⟩,
         ⟨"archive/b.warc", [2]⟩] none) "archive/" ["out"] ⟨[], [["out"]]⟩ =
      .ok ⟨(flatPairs ["out"] (ZipFileM.mk "h.wacz"
        [⟨"archive/a.warc", [1]⟩, ⟨"indexes/i.cdx", [9]⟩,
         ⟨"archive/b.warc", [2]⟩] none).filelist).reverse ++
        (FS.mk [] [["out"]]).files, (FS.mk [] [["out"]]).dirs⟩ ∧
    (∀ e ∈ (ZipFileM.mk "h.wacz"
        [⟨"archive/a.warc", [1]⟩, ⟨"indexes/i.cdx", [9]⟩,
         ⟨"archive/b.warc", [2]⟩] none).filelist,
      pyStartsWith e.filename "archive/" = true →
      (["out"] ++ [ospathBasename e.filename], FileContent.bytes e.bytes) ∈
        (flatPairs ["out"] (ZipFileM.mk "h.wacz"
          [⟨"archive/a.warc", [1]⟩, ⟨"indexes/i.cdx", [9]⟩,
           ⟨"archive/b.warc", [2]⟩] none).filelist).reverse ++
          (FS.mk [] [["out"]]).files) ∧
    ((∀ e ∈ (ZipFileM.mk "h.wacz"
        [⟨"archive/a.warc", [1]⟩, ⟨"indexes/i.cdx", [9]⟩,
         ⟨"archive/b.warc", [2]⟩] none).filelist,
      pyStartsWith e.filename "archive/" = false) →
      extract_from_to (ZipFileM.mk "h.wacz"
        [⟨"archive/a.warc", [1]⟩, ⟨"indexes/i.cdx", [9]⟩,
         ⟨"archive/b.warc", [2]⟩] none) "archive/" ["out"]
        ⟨[], [["out"]]⟩ = .ok ⟨[], [["out"]]⟩)) :=
  ⟨by decide, by decide, by decide, by decide, by decide, by decide,
   claim3_relocation _ _ _ (by decide) (by decide) (by decide) (by decide)
     (by decide) (by decide)⟩

/-! ## Claim C8 -/

/-- C8 counterexample: an archive containing the directory-marker entry
`archive/`.  Extraction creates the directory, then `shutil.move` of the
directory to the destination root raises (`shutil.Error`: the real
destination `out/archive` already exists), so the entry is not skipped
and the relocation fails. -/
theorem claim8_counterexample :
    (isDirEntryName "archive/" = true) ∧
    (pyStartsWith "archive/" "archive/" = true) ∧
    extract_from_to ⟨"h.wacz", [⟨"archive/", []⟩], none⟩ "archive/" ["out"]
        ⟨[], [["out"]]⟩ =
      .err .shutilError ⟨[], [["out", "archive"], ["out"]]⟩ := by
  refine ⟨by decide, by decide, by decide⟩

/-- C8 amended: a directory-marker entry under the prefix is *not*
skipped: extracting it creates the intermediate directory and the
subsequent flatten move fails with `shutil.Error` (its destination, the
just-created directory, already exists), aborting the relocation with
the directory left behind; entries after the marker are not processed. -/
theorem claim8_dir_marker (z : ZipFileM) (tp : FsPath) (fs : FS)
    (bs : List Nat) (rest : List ZipEntry)
    (hlist : z.filelist = ⟨"archive/", bs⟩ :: rest)
    (htp : IsDir fs tp)
    (hnd : ¬ IsDir fs (tp ++ ["archive"]))
    (hnf : lookupFS fs.files (tp ++ ["archive"]) = none) :
    extract_from_to z "archive/" tp fs =
      .err .shutilError ⟨fs.files, (tp ++ ["archive"]) :: fs.dirs⟩ := by
  have hAex : ¬ pathExists fs (tp ++ ["archive"]) := by
    intro hex
    rcases (show IsDir fs (tp ++ ["archive"]) ∨ IsFile fs (tp ++ ["archive"])
        from hex) with hd | hf
    · exact hnd hd
    · rw [IsFile, hnf] at hf
      exact absurd hf (by decide)
  have hpre : List.isPrefixOf (tp ++ ["archive"]) tp = false := by
    cases hb : List.isPrefixOf (tp ++ ["archive"]) tp
    · rfl
    · have hlen := (List.isPrefixOf_iff_prefix.mp hb).length_le
      simp at hlen
  unfold extract_from_to
  rw [hlist]
  rw [extractLoop_cons_match "archive/" tp ⟨"archive/", bs⟩ rest fs
    (by exact (by decide : pyStartsWith "archive/" "archive/" = true))]
  rw [zipExtract_unfold "archive/" bs tp fs]
  rw [show comps "archive/" = ["archive"] from rfl]
  rw [List.dropLast_concat]
  rw [if_neg (fun hcc => hcc.2 (Or.inl htp))]
  simp only [PResult.bind]
  rw [show isDirEntryName "archive/" = true from rfl]
  rw [if_pos rfl]
  rw [if_pos hnd]
  rw [osMkdir_ok hAex (by rw [List.dropLast_concat]; exact htp)]
  simp only [PResult.bind]
  rw [show comps (ospathBasename "archive/") = ([] : List String) from rfl]
  rw [List.append_nil]
  unfold shutilMove
  rw [if_pos (show IsDir ⟨fs.files, (tp ++ ["archive"]) :: fs.dirs⟩ tp from
    IsDir_grow htp)]
  rw [hpre]
  rw [if_neg (by decide)]
  rw [List.getLastD_concat]
  rw [if_pos (show pathExists ⟨fs.files, (tp ++ ["archive"]) :: fs.dirs⟩
      (tp ++ ["archive"]) from Or.inl IsDir_cons_self)]

/-- Witness for the amended C8. -/
theorem claim8_dir_marker_witness :
    ((ZipFileM.mk "h.wacz" [⟨"archive/", [0]⟩, ⟨"archive/x.warc", [1]⟩]
        none).filelist = ⟨"archive/", [0]⟩ :: [⟨"archive/x.warc", [1]⟩]) ∧
    IsDir ⟨[], [["dst"]]⟩ ["dst"] ∧
    ¬ IsDir ⟨[], [["dst"]]⟩ (["dst"] ++ ["archive"]) ∧
    lookupFS (FS.mk [] [["dst"]]).files (["dst"] ++ ["archive"]) = none ∧
    extract_from_to (ZipFileM.mk "h.wacz"
        [⟨"archive/", [0]⟩, ⟨"archive/x.warc", [1]⟩] none) "archive/" ["dst"]
        ⟨[], [["dst"]]⟩ =
      .err .shutilError ⟨[], (["dst"] ++ ["archive"]) :: [["dst"]]⟩ :=
  ⟨rfl, by decide, by decide, by decide,
   claim8_dir_marker _ ["dst"] ⟨[], [["dst"]]⟩ [0] [⟨"archive/x.warc", [1]⟩]
     rfl (by decide) (by decide) (by decide)⟩

/-! ## Claim C7 -/

/-- C7 counterexample: the destination already holds `out/f.warc` (bytes
`[7]`); relocating `archive/f.warc` (bytes `[1, 2]`) succeeds with no
error of any kind and silently replaces the file's contents — there is
no collision failure. -/
theorem claim7_counterexample :
    lookupFS [((["out", "f.warc"] : FsPath), FileContent.bytes [7])]
      ["out", "f.warc"] = some (.bytes [7]) ∧
    extract_from_to ⟨"h.wacz", [⟨"archive/f.warc", [1, 2]⟩], none⟩ "archive/"
        ["out"] ⟨[(["out", "f.warc"], .bytes [7])], [["out"]]⟩ =
      .ok ⟨[(["out", "f.warc"], .bytes [1, 2])], [["out"]]⟩ := by
  refine ⟨by decide, by decide⟩

theorem shutilMove_overwrite_ok (tp : FsPath) (n : String) (bs : List Nat)
    (fs : FS)
    (hnarch : n ≠ "archive")
    (htp : IsDir fs tp)
    (hdstd : ¬ IsDir fs (tp ++ [n])) :
    shutilMove (tp ++ ["archive", n]) (tp ++ [n])
        ⟨(tp ++ ["archive", n], .bytes bs) :: fs.files,
         (tp ++ ["archive"]) :: fs.dirs⟩ =
      .ok ⟨(tp ++ [n], .bytes bs) ::
        fs.files.filter (fun kv =>
          kv.1 ≠ tp ++ ["archive", n] ∧ kv.1 ≠ tp ++ [n]),
        (tp ++ ["archive"]) :: fs.dirs⟩ := by
  have hDA : tp ++ [n] ≠ tp ++ ["archive"] := hpAppend_ne tp (by
    intro he
    injection he with h1 _
    exact hnarch h1)
  have hDd1 : ¬ IsDir ⟨(tp ++ ["archive", n], FileContent.bytes bs) :: fs.files,
      (tp ++ ["archive"]) :: fs.dirs⟩ (tp ++ [n]) := by
    intro hd
    rcases (show (tp ++ [n] : FsPath) = [] ∨
        tp ++ [n] ∈ (tp ++ ["archive"]) :: fs.dirs from hd) with h0 | hmem
    · simp at h0
    · rcases List.mem_cons.mp hmem with he | hm
      · exact hDA he
      · exact hdstd (Or.inr hm)
  unfold shutilMove
  rw [if_neg hDd1]
  rw [osRename_file_ok lookupFS_cons_self hDd1
    (by rw [List.dropLast_concat]; exact IsDir_grow htp)]
  rw [List.filter_cons]
  rw [if_neg (by simp)]

theorem osRmdir_archive_gen (tp : FsPath) (n : String) (bs : List Nat)
    (G : List (FsPath × FileContent)) (ds : List FsPath)
    (hnarch : n ≠ "archive")
    (hcleanD : ∀ d ∈ ds, ((tp ++ ["archive"]).isPrefixOf d) = false)
    (hcleanG : ∀ kv ∈ G, ((tp ++ ["archive"]).isPrefixOf kv.1) = false) :
    osRmdir (tp ++ ["archive"])
        ⟨(tp ++ [n], .bytes bs) :: G, (tp ++ ["archive"]) :: ds⟩ =
      .ok ⟨(tp ++ [n], .bytes bs) :: G, ds⟩ := by
  have hDA : tp ++ [n] ≠ tp ++ ["archive"] := hpAppend_ne tp (by
    intro he
    injection he with h1 _
    exact hnarch h1)
  have hAD : List.isPrefixOf (tp ++ ["archive"]) (tp ++ [n]) = false := by
    cases hb : List.isPrefixOf (tp ++ ["archive"]) (tp ++ [n])
    · rfl
    · exact absurd (eq_of_isPrefixOf_append_singleton hb)
        (fun he => hnarch he.symm)
  have hAf : lookupFS G (tp ++ ["archive"]) = none := by
    rw [lookupFS_none_iff]
    intro kv hkv he
    have hb := hcleanG kv hkv
    rw [he, isPrefixOf_self] at hb
    exact absurd hb (by decide)
  have hnf : ¬ IsFile ⟨(tp ++ [n], FileContent.bytes bs) :: G,
      (tp ++ ["archive"]) :: ds⟩ (tp ++ ["archive"]) := by
    rw [IsFile]
    rw [lookupFS_cons_ne (by exact hDA)]
    rw [hAf]
    decide
  have hch : hasChild ⟨(tp ++ [n], FileContent.bytes bs) :: G,
      (tp ++ ["archive"]) :: ds⟩ (tp ++ ["archive"]) = false := by
    unfold hasChild
    rw [Bool.or_eq_false_iff]
    constructor
    · rw [List.any_eq_false]
      intro q hq
      rcases List.mem_cons.mp hq with he | hm
      · rw [he]
        simp
      · have hb := hcleanD _ hm
        rw [hb]
        simp
    · rw [List.any_eq_false]
      intro kv hkv
      rcases List.mem_cons.mp hkv with he | hm
      · rw [he]
        rw [show ((tp ++ [n], FileContent.bytes bs)).1 = tp ++ [n] from rfl]
        rw [hAD]
        simp
      · have hb := hcleanG _ hm
        rw [hb]
        simp
  unfold osRmdir
  rw [if_neg hnf]
  rw [if_neg (by
    intro hcc
    exact hcc IsDir_cons_self)]
  rw [hch]
  rw [if_neg (by decide)]
  rw [if_neg (by simp)]
  have hde : List.filter (fun d => decide (d ≠ tp ++ ["archive"]))
      ((tp ++ ["archive"]) :: ds) = ds := by
    rw [List.filter_cons]
    rw [if_neg (by simp)]
    apply List.filter_eq_self.mpr
    intro d hd
    apply decide_eq_true
    intro he
    have hb := hcleanD _ hd
    rw [he, isPrefixOf_self] at hb
    exact absurd hb (by decide)
  rw [hde]

/-- C7 amended: neither colliding relocation targets nor a colliding
capture-file rename target raise any error — `os.rename` replaces the
pre-existing file silently.  Part one: relocating an entry whose flat
target exists as a file succeeds and replaces that file's contents.
Part two: the `data.warc.gz` rename over an existing
`<collection-identifier>.warc.gz` file succeeds and replaces it. -/
theorem claim7_silent_overwrite (z : ZipFileM) (tp : FsPath) (n : String)
    (bs : List Nat) (c0 : FileContent) (fs : FS)
    (hzl : z.filelist = [⟨"archive/" ++ n, bs⟩])
    (hn0 : n ≠ "") (hnsl : '/' ∉ n.data) (hnarch : n ≠ "archive")
    (htp : IsDir fs tp)
    (hdstd : ¬ IsDir fs (tp ++ [n]))
    (hdstf : lookupFS fs.files (tp ++ [n]) = some c0)
    (hcD : ∀ d ∈ fs.dirs, ((tp ++ ["archive"]).isPrefixOf d) = false)
    (hcF : ∀ kv ∈ fs.files, ((tp ++ ["archive"]).isPrefixOf kv.1) = false)
    (hp : FsPath) (hn : String) (cD cC : FileContent) (fsB : FS)
    (hBsl : '/' ∉ hn.data)
    (hBsrc : lookupFS fsB.files (hp ++ ["data.warc.gz"]) = some cD)
    (hBpre : lookupFS fsB.files (hp ++ [hn ++ ".warc.gz"]) = some cC)
    (hBdstd : ¬ IsDir fsB (hp ++ [hn ++ ".warc.gz"]))
    (hBhp : IsDir fsB hp) :
    extract_from_to z "archive/" tp fs =
      .ok ⟨(tp ++ [n], .bytes bs) ::
        fs.files.filter (fun kv =>
          kv.1 ≠ tp ++ ["archive", n] ∧ kv.1 ≠ tp ++ [n]),
        fs.dirs⟩ ∧
    lookupFS ((tp ++ [n], FileContent.bytes bs) ::
        fs.files.filter (fun kv =>
          kv.1 ≠ tp ++ ["archive", n] ∧ kv.1 ≠ tp ++ [n]))
        (tp ++ [n]) = some (.bytes bs) ∧
    renameDataWarc hp hn fsB =
      .ok ⟨(hp ++ [hn ++ ".warc.gz"], cD) ::
        fsB.files.filter (fun kv =>
          kv.1 ≠ hp ++ ["data.warc.gz"] ∧ kv.1 ≠ hp ++ [hn ++ ".warc.gz"]),
        fsB.dirs⟩ ∧
    lookupFS ((hp ++ [hn ++ ".warc.gz"], cD) ::
        fsB.files.filter (fun kv =>
          kv.1 ≠ hp ++ ["data.warc.gz"] ∧ kv.1 ≠ hp ++ [hn ++ ".warc.gz"]))
        (hp ++ [hn ++ ".warc.gz"]) = some cD := by
  refine ⟨?_, lookupFS_cons_self, ?_, lookupFS_cons_self⟩
  · have hsw : pyStartsWith ("archive/" ++ n) "archive/" = true := by
      unfold pyStartsWith
      rw [String.data_append]
      exact isPrefixOf_append_self _ _
    unfold extract_from_to
    rw [hzl]
    rw [extractLoop_cons_match "archive/" tp ⟨"archive/" ++ n, bs⟩ [] fs hsw]
    rw [zipExtract_flat_ok tp n bs fs hn0 hnsl htp hcD hcF]
    simp only [PResult.bind]
    rw [comps_archive_entry n hn0 hnsl]
    rw [ospathBasename_archive n hnsl]
    rw [comps_no_slash n hnsl hn0]
    rw [shutilMove_overwrite_ok tp n bs fs hnarch htp hdstd]
    simp only [PResult.bind]
    rw [show comps "archive/" = ["archive"] from rfl]
    rw [osRmdir_archive_gen tp n bs _ fs.dirs hnarch hcD (by
      intro kv hkv
      exact hcF kv (List.mem_filter.mp hkv).1)]
    simp only [PResult.bind]
    rw [extractLoop_nil]
  · have hne0 : (hn ++ ".warc.gz") ≠ "" := by
      intro he
      have h0 := congrArg String.data he
      rw [String.data_append, show ("" : String).data = [] from rfl] at h0
      rcases List.append_eq_nil.mp h0 with ⟨_, h9⟩
      exact absurd h9 (by decide)
    have hslc : '/' ∉ (hn ++ ".warc.gz").data := by
      rw [String.data_append, List.mem_append]
      rintro (hx | hx)
      · exact hBsl hx
      · exact absurd hx (by decide)
    have hcomps1 : comps "data.warc.gz" = ["data.warc.gz"] := rfl
    have hcomps2 : comps (hn ++ ".warc.gz") = [hn ++ ".warc.gz"] :=
      comps_no_slash _ hslc hne0
    have hfile : IsFile fsB (hp ++ ["data.warc.gz"]) := by
      show (lookupFS fsB.files (hp ++ ["data.warc.gz"])).isSome = true
      rw [hBsrc]
      rfl
    simp only [renameDataWarc, hcomps1, hcomps2]
    rw [if_pos (show pathExists fsB (hp ++ ["data.warc.gz"]) from
      Or.inr hfile)]
    rw [osRename_file_ok hBsrc hBdstd
      (by rw [List.dropLast_concat]; exact hBhp)]

/-- Witness for the amended C7: both overwrite scenarios at concrete
states. -/
theorem claim7_silent_overwrite_witness :
    ((ZipFileM.mk "h.wacz" [⟨"archive/" ++ "f.warc", [1, 2]⟩] none).filelist =
      [⟨"archive/" ++ "f.warc", [1, 2]⟩]) ∧
    (("f.warc" : String) ≠ "") ∧
    ('/' ∉ ("f.warc" : String).data) ∧
    (("f.warc" : String) ≠ "archive") ∧
    IsDir ⟨[(["out", "f.warc"], .bytes [7])], [["out"]]⟩ ["out"] ∧
    ¬ IsDir ⟨[(["out", "f.warc"], .bytes [7])], [["out"]]⟩
      (["out"] ++ ["f.warc"]) ∧
    lookupFS [((["out", "f.warc"] : FsPath), FileContent.bytes [7])]
      (["out"] ++ ["f.warc"]) = some (.bytes [7]) ∧
    (∀ d ∈ (FS.mk [(["out", "f.warc"], FileContent.bytes [7])]
        [["out"]]).dirs, ((["out"] ++ ["archive"]).isPrefixOf d) = false) ∧
    (∀ kv ∈ (FS.mk [(["out", "f.warc"], FileContent.bytes [7])]
        [["out"]]).files,
      ((["out"] ++ ["archive"]).isPrefixOf kv.1) = false) ∧
    ('/' ∉ ("Linkra-X" : String).data) ∧
    lookupFS (FS.mk [(["o2", "data.warc.gz"], FileContent.bytes [3]),
        (["o2", "Linkra-X.warc.gz"], FileContent.bytes [9])] [["o2"]]).files
      (["o2"] ++ ["data.warc.gz"]) = some (.bytes [3]) ∧
    lookupFS (FS.mk [(["o2", "data.warc.gz"], FileContent.bytes [3]),
        (["o2", "Linkra-X.warc.gz"], FileContent.bytes [9])] [["o2"]]).files
      (["o2"] ++ ["Linkra-X" ++ ".warc.gz"]) = some (.bytes [9]) ∧
    ¬ IsDir (FS.mk [(["o2", "data.warc.gz"], FileContent.bytes [3]),
        (["o2", "Linkra-X.warc.gz"], FileContent.bytes [9])] [["o2"]])
      (["o2"] ++ ["Linkra-X" ++ ".warc.gz"]) ∧
    IsDir (FS.mk [(["o2", "data.warc.gz"], FileContent.bytes [3]),
        (["o2", "Linkra-X.warc.gz"], FileContent.bytes [9])] [["o2"]])
      ["o2"] ∧
    (extract_from_to
        (ZipFileM.mk "h.wacz" [⟨"archive/" ++ "f.warc", [1, 2]⟩] none)
        "archive/" ["out"]
        ⟨[(["out", "f.warc"], .bytes [7])], [["out"]]⟩ =
      .ok ⟨(["out"] ++ ["f.warc"], .bytes [1, 2]) ::
        (FS.mk [(["out", "f.warc"], FileContent.bytes [7])]
          [["out"]]).files.filter (fun kv =>
            kv.1 ≠ ["out"] ++ ["archive", "f.warc"] ∧
            kv.1 ≠ ["out"] ++ ["f.warc"]),
        (FS.mk [(["out", "f.warc"], FileContent.bytes [7])]
          [["out"]]).dirs⟩ ∧
    lookupFS ((["out"] ++ ["f.warc"], FileContent.bytes [1, 2]) ::
        (FS.mk [(["out", "f.warc"], FileContent.bytes [7])]
          [["out"]]).files.filter (fun kv =>
            kv.1 ≠ ["out"] ++ ["archive", "f.warc"] ∧
            kv.1 ≠ ["out"] ++ ["f.warc"]))
        (["out"] ++ ["f.warc"]) = some (.bytes [1, 2]) ∧
    renameDataWarc ["o2"] "Linkra-X"
        (FS.mk [(["o2", "data.warc.gz"], FileContent.bytes [3]),
          (["o2", "Linkra-X.warc.gz"], FileContent.bytes [9])] [["o2"]]) =
      .ok ⟨(["o2"] ++ ["Linkra-X" ++ ".warc.gz"], FileContent.bytes [3]) ::
        (FS.mk [(["o2", "data.warc.gz"], FileContent.bytes [3]),
          (["o2", "Linkra-X.warc.gz"], FileContent.bytes [9])]
          [["o2"]]).files.filter (fun kv =>
            kv.1 ≠ ["o2"] ++ ["data.warc.gz"] ∧
            kv.1 ≠ ["o2"] ++ ["Linkra-X" ++ ".warc.gz"]),
        (FS.mk [(["o2", "data.warc.gz"], FileContent.bytes [3]),
          (["o2", "Linkra-X.warc.gz"], FileContent.bytes [9])]
          [["o2"]]).dirs⟩ ∧
    lookupFS ((["o2"] ++ ["Linkra-X" ++ ".warc.gz"], FileContent.bytes [3]) ::
        (FS.mk [(["o2", "data.warc.gz"], FileContent.bytes [3]),
          (["o2", "Linkra-X.warc.gz"], FileContent.bytes [9])]
          [["o2"]]).files.filter (fun kv =>
            kv.1 ≠ ["o2"] ++ ["data.warc.gz"] ∧
            kv.1 ≠ ["o2"] ++ ["Linkra-X" ++ ".warc.gz"]))
        (["o2"] ++ ["Linkra-X" ++ ".warc.gz"]) = some (.bytes [3])) :=
  ⟨rfl, by decide, by decide, by decide, by decide, by decide, by decide,
   by decide, by decide, by decide, by decide, by decide, by decide,
   by decide,
   claim7_silent_overwrite
     (ZipFileM.mk "h.wacz" [⟨"archive/" ++ "f.warc", [1, 2]⟩] none)
     ["out"] "f.warc" [1, 2] (.bytes [7])
     ⟨[(["out", "f.warc"], .bytes [7])], [["out"]]⟩
     rfl (by decide) (by decide) (by decide) (by decide) (by decide)
     (by decide) (by decide) (by decide)
     ["o2"] "Linkra-X" (.bytes [3]) (.bytes [9])
     (FS.mk [(["o2", "data.warc.gz"], FileContent.bytes [3]),
       (["o2", "Linkra-X.warc.gz"], FileContent.bytes [9])] [["o2"]])
     (by decide) (by decide) (by decide) (by decide) (by decide)⟩
